import Mathlib

/-!
# Verification of the cosmic-comp tiling layout engine

A shallow embedding of `src/shell/layout/tiling/mod.rs`: the partition-tree
data structure (`Data` nodes inside an `id_tree`-style arena) and the public
operations of `TilingLayout` (`map`, `unmap`, `refresh`, `update_orientation`,
`merge`, `map_output`), together with theorems settling the frozen claims
about this code.

Modelling conventions:
* `i32` values become `Int` (no arithmetic here approaches `i32` bounds);
  Rust `/` on integers is `Int.tdiv` (truncation toward zero).
* The `f64` computations `(a as f64 / b as f64 * c as f64).round()` are
  modelled exactly over the rationals by `roundRat (a * c) b`
  (round-half-away-from-zero, which is `f64::round`'s rule).  Every claim
  below evaluates this model only at inputs where the `f64` computation is
  exact, so the model agrees with the machine arithmetic there.
* `CosmicMapped` window handles become `Nat` identifiers; the engine-visible
  window state (`alive`, fullscreen, tiled flag, `tiling_node_id` slot) lives
  in a `Nat → WindowState` map carried by the layout state.
* `id_tree::Tree` becomes an arena (`List (Option TNode)` of slots addressed
  by `Nat` node ids, a free-id list, an optional root).  `NodeId`s in the
  real crate additionally carry the identity of their owning tree; the
  claims below are insensitive to that refinement because every lookup the
  code performs is guarded by a window-identity check.
* Rust panics (`unwrap` on invariants the engine owns) are modelled as
  identity/no-op fallbacks; no claim exercises those paths.
* `mapped.set_size(..)`/`mapped.configure()` calls are recorded in an event
  log so that claims about "no second configure" are statable.
-/

namespace Tiling

/-- Round-half-away-from-zero of the exact rational `p / q` (for `q > 0`):
the value `f64::round` yields for these quotients when the floating-point
computation is exact. -/
def roundRat (p q : Int) : Int :=
  if 0 ≤ p then (2 * p + q).fdiv (2 * q) else -((2 * (-p) + q).fdiv (2 * q))

/-- `Orientation` from `src/shell/layout/mod.rs`. -/
inductive Orientation where
  | horizontal
  | vertical
deriving DecidableEq, Repr

/-- `FocusDirection` (from `shell/focus`): argument of `next_focus`. -/
inductive FocusDirection where
  | left
  | right
  | up
  | down
  | out
deriving DecidableEq, Repr

/-- `Rectangle<i32, Logical>`: location `(x, y)` and size `(w, h)`. -/
structure Rect where
  x : Int
  y : Int
  w : Int
  h : Int
deriving DecidableEq, Repr

/-- `Point<i32, Logical>`. -/
structure Pt where
  x : Int
  y : Int
deriving DecidableEq, Repr

/-- The extent of a rectangle along a group's orientation axis:
`size.h` for `Horizontal`, `size.w` for `Vertical` (the repeated
`match orientation { Horizontal => size.h, Vertical => size.w }` pattern). -/
def Rect.lengthAlong (o : Orientation) (r : Rect) : Int :=
  match o with
  | .horizontal => r.h
  | .vertical => r.w

/-- The `Data` enum: a `Group` node (orientation, per-child sizes, cached
geometry) or a `Mapped` leaf (window handle, cached geometry).  The
`alive: Arc<()>` liveness witness of `Group` carries no data relevant to
the claims and is omitted. -/
inductive Data where
  | group (orientation : Orientation) (sizes : List Int) (lastGeometry : Rect)
  | mapped (window : Nat) (lastGeometry : Rect)
deriving DecidableEq, Repr

namespace Data

/-- `Data::new_group`: two equal placeholder sizes of half the geometry's
extent along the orientation. -/
def newGroup (o : Orientation) (geo : Rect) : Data :=
  .group o
    (List.replicate 2
      (match o with
       | .vertical => Int.tdiv geo.w 2
       | .horizontal => Int.tdiv geo.h 2))
    geo

/-- `Data::is_group`. -/
def isGroup : Data → Bool
  | .group _ _ _ => true
  | .mapped _ _ => false

/-- `Data::is_mapped(Some(m))`: leaf holding exactly the window `m`. -/
def isMappedWin (m : Nat) : Data → Bool
  | .mapped w _ => w == m
  | .group _ _ _ => false

/-- `Data::is_mapped(None)`: any leaf. -/
def isMappedAny : Data → Bool
  | .mapped _ _ => true
  | .group _ _ _ => false

/-- The window handle carried by a leaf payload (`none` for groups). -/
def winOf : Data → Option Nat
  | .mapped w _ => some w
  | .group _ _ _ => none

/-- `Data::orientation` (panics on a leaf; unreachable in verified paths,
modelled with a junk default). -/
def orientationOf : Data → Orientation
  | .group o _ _ => o
  | .mapped _ _ => .horizontal

/-- `Data::geometry`. -/
def geometry : Data → Rect
  | .group _ _ g => g
  | .mapped _ g => g

/-- `Data::len`: number of sizes for a group, `1` for a leaf. -/
def numSizes : Data → Nat
  | .group _ sizes _ => sizes.length
  | .mapped _ _ => 1

/-- Add `d` to the last entry of `l` (`*sizes.last_mut().unwrap() += d`;
the empty case panics in Rust and is unreachable here). -/
def bumpLast (l : List Int) (d : Int) : List Int :=
  match l with
  | [] => []
  | _ => l.dropLast ++ [l.getLastD 0 + d]

/-- `Data::add_window(idx)`: equal share `L/(n+1)` for the new entry, scale
the existing sizes by `(L - equal)/L` with rounding, and insert the exact
remainder at `idx`. -/
def addWindow (d : Data) (idx : Nat) : Data :=
  match d with
  | .group o sizes lastGeometry =>
      let lastLength := lastGeometry.lengthAlong o
      let equalSizing := Int.tdiv lastLength (sizes.length + 1)
      let remainder := lastLength - equalSizing
      let sizes := sizes.map fun size => roundRat (size * remainder) lastLength
      let usedSize := sizes.sum
      let newSize := lastLength - usedSize
      .group o (sizes.insertIdx idx newSize) lastGeometry
  | .mapped w g => .mapped w g

/-- `Data::remove_window(idx)`: drop the departing size, grow each remaining
size proportionally to its own weight, and push the whole remaining drift
(either sign) onto the last entry. -/
def removeWindow (d : Data) (idx : Nat) : Data :=
  match d with
  | .group o sizes lastGeometry =>
      let lastLength := lastGeometry.lengthAlong o
      let oldSize := sizes.getD idx 0
      let sizes := sizes.eraseIdx idx
      let sizes := sizes.map fun size => size + roundRat (oldSize * size) lastLength
      let usedSize := sizes.sum
      let overflow := lastLength - usedSize
      .group o (if overflow ≠ 0 then bumpLast sizes overflow else sizes) lastGeometry
  | .mapped w g => .mapped w g

/-- `Data::update_geometry(geo)`: rescale every size by
`new_length/previous_length` with rounding; a rounding *deficit*
(`sum < new_length`) is pushed onto the last entry, a surplus is left as
is; then store the new geometry. -/
def updateGeometry (d : Data) (geo : Rect) : Data :=
  match d with
  | .group o sizes lastGeometry =>
      let previousLength := lastGeometry.lengthAlong o
      let newLength := geo.lengthAlong o
      let sizes := sizes.map fun len => roundRat (len * newLength) previousLength
      let sum := sizes.sum
      let sizes := if sum < newLength then bumpLast sizes (newLength - sum) else sizes
      .group o sizes geo
  | .mapped w _ => .mapped w geo

end Data

/-! ## The `id_tree` arena -/

/-- One arena node: payload plus parent/children links by node id. -/
structure TNode where
  data : Data
  parent : Option Nat
  children : List Nat
deriving DecidableEq, Repr

/-- `id_tree::Tree<Data>`: slots addressed by node id, a LIFO free-id list,
and an optional root id. -/
structure Tree where
  nodes : List (Option TNode)
  freeIds : List Nat
  root : Option Nat
deriving DecidableEq, Repr

namespace Tree

/-- `Tree::new()`. -/
def empty : Tree := ⟨[], [], none⟩

instance : Inhabited Tree := ⟨empty⟩

/-- `Tree::get`: `Ok(node)` becomes `some`, any `NodeIdError` becomes `none`. -/
def getNode (t : Tree) (id : Nat) : Option TNode :=
  t.nodes.getD id none

/-- Replace the slot of `id` (no-op when `id` is out of range). -/
def setSlot (t : Tree) (id : Nat) (s : Option TNode) : Tree :=
  { t with nodes := t.nodes.set id s }

/-- Apply `f` to the node stored at `id`, if any. -/
def modifyNode (t : Tree) (id : Nat) (f : TNode → TNode) : Tree :=
  match t.getNode id with
  | none => t
  | some n => t.setSlot id (some (f n))

/-- Allocate a slot for a fresh node: reuse the most recently freed id if
any (`free_ids.pop()`), else grow the slot vector. -/
def alloc (t : Tree) (n : TNode) : Tree × Nat :=
  match t.freeIds with
  | fid :: rest => ({ t with nodes := t.nodes.set fid (some n), freeIds := rest }, fid)
  | [] => ({ t with nodes := t.nodes ++ [some n] }, t.nodes.length)

/-- `children_ids` of a node (empty when the id does not resolve). -/
def childrenOf (t : Tree) (id : Nat) : List Nat :=
  match t.getNode id with
  | none => []
  | some n => n.children

/-- Parent id of a node. -/
def parentOf (t : Tree) (id : Nat) : Option Nat :=
  match t.getNode id with
  | none => none
  | some n => n.parent

/-- `insert(node, InsertBehavior::UnderNode(p))`: allocate, set the parent
link and append to `p`'s children.  An unresolvable parent is a
`NodeIdError` the code always `unwrap`s; modelled as a no-op with junk id. -/
def insertUnder (t : Tree) (p : Nat) (d : Data) : Tree × Nat :=
  match t.getNode p with
  | none => (t, 0)
  | some _ =>
      let (t, id) := t.alloc ⟨d, some p, []⟩
      (t.modifyNode p (fun n => { n with children := n.children ++ [id] }), id)

/-- `insert(node, InsertBehavior::AsRoot)`: the new node becomes the root;
an existing root becomes its child. -/
def insertAsRoot (t : Tree) (d : Data) : Tree × Nat :=
  match t.root with
  | none =>
      let (t, id) := t.alloc ⟨d, none, []⟩
      ({ t with root := some id }, id)
  | some r =>
      let (t, id) := t.alloc ⟨d, none, [r]⟩
      let t := t.modifyNode r (fun n => { n with parent := some id })
      ({ t with root := some id }, id)

/-- Detach a node from its parent's child list (keeping its own parent
field untouched). -/
def detachFromParent (t : Tree) (id : Nat) : Tree :=
  match t.parentOf id with
  | none => t
  | some p => t.modifyNode p (fun n => { n with children := n.children.erase id })

/-- Depth-first pre-order id traversal seeded with a work stack, with
explicit fuel (`traverse_pre_order_ids`). -/
def preOrderAux (t : Tree) : Nat → List Nat → List Nat
  | 0, _ => []
  | _, [] => []
  | fuel + 1, id :: rest =>
      match t.getNode id with
      | none => id :: preOrderAux t fuel rest
      | some n => id :: preOrderAux t fuel (n.children ++ rest)

/-- Pre-order traversal from the root.  The fuel `t.nodes.length` covers
every tree whose reachable ids are distinct allocated slots. -/
def preOrderIds (t : Tree) : List Nat :=
  match t.root with
  | none => []
  | some r => preOrderAux t t.nodes.length [r]

/-- `remove_node(id, RemoveBehavior::DropChildren)`: free the node and its
whole subtree, detach it from its parent, clear the root if it was the
root. -/
def removeNodeDrop (t : Tree) (id : Nat) : Tree :=
  match t.getNode id with
  | none => t
  | some _ =>
      let ids := t.preOrderAux t.nodes.length [id]
      let t := t.detachFromParent id
      let t := ids.foldl (fun t i => t.setSlot i none) t
      { t with
        freeIds := ids ++ t.freeIds,
        root := if t.root = some id then none else t.root }

/-- `remove_node(id, RemoveBehavior::OrphanChildren)`: free only the node;
its children stay allocated with their parent link cleared. -/
def removeNodeOrphan (t : Tree) (id : Nat) : Tree :=
  match t.getNode id with
  | none => t
  | some n =>
      let t := t.detachFromParent id
      let t := n.children.foldl
        (fun t c => t.modifyNode c (fun m => { m with parent := none })) t
      let t := t.setSlot id none
      { t with
        freeIds := id :: t.freeIds,
        root := if t.root = some id then none else t.root }

/-- `move_node(id, MoveBehavior::ToParent(p))`: detach from the old parent
and append as `p`'s last child.  (The engine never moves the current root
this way; the root field is left untouched.) -/
def moveToParent (t : Tree) (id p : Nat) : Tree :=
  match t.getNode id with
  | none => t
  | some _ =>
      let t := t.detachFromParent id
      let t := t.modifyNode id (fun n => { n with parent := some p })
      t.modifyNode p (fun n => { n with children := n.children ++ [id] })

/-- `move_node(id, MoveBehavior::ToRoot)`: detach and make the node the
root; an existing different root would become its child (the engine only
uses this when the root slot is empty). -/
def moveToRoot (t : Tree) (id : Nat) : Tree :=
  match t.getNode id with
  | none => t
  | some _ =>
      let t := t.detachFromParent id
      let t := t.modifyNode id (fun n => { n with parent := none })
      match t.root with
      | none => { t with root := some id }
      | some r =>
          if r = id then t
          else
            let t := t.modifyNode r (fun n => { n with parent := some id })
            let t := t.modifyNode id (fun n => { n with children := n.children ++ [r] })
            { t with root := some id }

/-- `make_nth_sibling(id, n)`: reposition `id` at index `n` among its
parent's children. -/
def makeNthSibling (t : Tree) (id : Nat) (n : Nat) : Tree :=
  match t.parentOf id with
  | none => t
  | some p =>
      t.modifyNode p (fun m => { m with children := (m.children.erase id).insertIdx n id })

/-- Does `id` resolve to a leaf holding exactly window `w`?  This is the
`tree.get(node_id).map(|n| n.data().is_mapped(Some(mapped))).unwrap_or(false)`
guard of `unmap_window_internal`. -/
def isMappedAt (t : Tree) (id : Nat) (w : Nat) : Bool :=
  match t.getNode id with
  | none => false
  | some n => n.data.isMappedWin w

/-- The window handles of all leaves in pre-order (the per-tree content of
`TilingLayout::mapped`). -/
def mappedWindows (t : Tree) : List Nat :=
  t.preOrderIds.filterMap fun id => (t.getNode id).bind fun n => n.data.winOf

end Tree

/-! ## The layout registry state and the public operations -/

/-- The engine-visible state of one `CosmicMapped` window handle. -/
structure WindowState where
  alive : Bool
  fullscreen : Bool
  tiled : Bool
  tilingNodeId : Option Nat
deriving DecidableEq, Repr

/-- One registry key: output identity, placement offset (`location`), the
output's full geometry, and `layer_map_for_output(..).non_exclusive_zone()`
(the externally supplied usable area). -/
structure OutputInfo where
  out : Nat
  location : Pt
  geometry : Rect
  usable : Rect
deriving DecidableEq, Repr

/-- Observable window reconfiguration calls issued by the engine. -/
inductive Ev where
  | setSize (w : Nat) (size : Int × Int)
  | configure (w : Nat)
deriving DecidableEq, Repr

/-- `TilingLayout` plus the window handles it shares with the compositor
and the log of reconfiguration calls it has issued. -/
structure LayoutState where
  gaps : Int × Int
  trees : List (OutputInfo × Tree)
  windows : Nat → WindowState
  events : List Ev

/-- Point-wise update of one window's state. -/
def updWin (ws : Nat → WindowState) (w : Nat) (f : WindowState → WindowState) :
    Nat → WindowState :=
  fun i => if i = w then f (ws i) else ws i

/-- Index of the registry entry of output `out`, if registered. -/
def LayoutState.treeIdx (s : LayoutState) (out : Nat) : Option Nat :=
  s.trees.findIdx? (fun e => e.1.out == out)

/-- All currently tiled window handles, in registry order
(`TilingLayout::mapped`, projected to the handles). -/
def LayoutState.mappedWindows (s : LayoutState) : List Nat :=
  s.trees.flatMap (fun e => e.2.mappedWindows)

/-- `TilingLayout::new_group(tree, old_id, new, orientation)`: wrap `old_id`
into a fresh binary group at `old_id`'s former tree position and insert the
new leaf as the group's second child.  Returns the new leaf's id. -/
def newGroupOp (t : Tree) (oldId : Nat) (newData : Data) (o : Orientation) :
    Tree × Nat :=
  let groupData := Data.newGroup o ⟨0, 0, 100, 100⟩
  let parentId := t.parentOf oldId
  let pos := parentId.bind fun p => (t.childrenOf p).indexOf? oldId
  let (t, groupId) :=
    match parentId with
    | some p => t.insertUnder p groupData
    | none => t.insertAsRoot groupData
  let t := t.moveToParent oldId groupId
  let t :=
    match pos with
    | some oldPos => t.makeNthSibling groupId oldPos
    | none => t
  t.insertUnder groupId newData

/-- `TilingLayout::last_active_window`: first window of the focus stack
whose leaf is found by a pre-order scan of the tree. -/
def lastActiveWindow (t : Tree) (focusStack : List Nat) : Option (Nat × Nat) :=
  focusStack.findSome? fun w =>
    (t.root.bind fun _ => t.preOrderIds.find? fun id => t.isMappedAt id w).map
      fun id => (w, id)

/-- `TilingLayout::map_output`: register the output, or re-key an existing
entry with the new location (tree contents untouched). -/
def LayoutState.mapOutput (s : LayoutState) (info : OutputInfo) : LayoutState :=
  match s.treeIdx info.out with
  | none => { s with trees := s.trees ++ [(info, Tree.empty)] }
  | some i =>
      match s.trees.getD i ((info, Tree.empty)) with
      | (_, t) => { s with trees := s.trees.set i (info, t) }

/-- `TilingLayout::map_internal`: insert `w` as a new leaf of `out`'s tree,
wrapping the reference node (last active window, else the root) into a new
group, and record the leaf id in the window's `tiling_node_id` slot.  A
missing output panics in Rust (`expect("Output not mapped?")`). -/
def LayoutState.mapInternal (s : LayoutState) (w : Nat) (out : Nat)
    (focusStack : List Nat) : LayoutState :=
  match s.treeIdx out with
  | none => s
  | some i =>
      match s.trees.getD i ((⟨0, ⟨0, 0⟩, ⟨0, 0, 0, 0⟩, ⟨0, 0, 0, 0⟩⟩, Tree.empty)) with
      | (info, t) =>
          let newWindow : Data := .mapped w ⟨0, 0, 100, 100⟩
          let (t, windowId) :=
            match lastActiveWindow t focusStack with
            | some (_, nodeId) =>
                let sz := ((t.getNode nodeId).map (fun n => n.data.geometry)).getD ⟨0, 0, 0, 0⟩
                let o : Orientation := if sz.w > sz.h then .vertical else .horizontal
                newGroupOp t nodeId newWindow o
            | none =>
                match t.root with
                | some rootId =>
                    let o : Orientation :=
                      if info.geometry.w > info.geometry.h then .vertical else .horizontal
                    newGroupOp t rootId newWindow o
                | none => t.insertAsRoot newWindow
          { s with
            trees := s.trees.set i (info, t),
            windows := updWin s.windows w (fun st => { st with tilingNodeId := some windowId }) }

/-- The adjusted target root geometry of `update_space_positions`: the
usable zone shrunk by the outer gap on all four sides. -/
def targetGeo (outer : Int) (usable : Rect) : Rect :=
  ⟨usable.x + outer, usable.y + outer, usable.w - outer * 2, usable.h - outer * 2⟩

/-- The child rectangles a group distributes along its axis: contiguous
slices of its own rectangle, one per stored size. -/
def childRects (o : Orientation) (sizes : List Int) (geo : Rect) : List Rect :=
  match o with
  | .horizontal =>
      (sizes.foldl
        (fun (acc : List Rect × Int) size =>
          (acc.1 ++ [⟨geo.x, geo.y + acc.2, geo.w, size⟩], acc.2 + size))
        ([], 0)).1
  | .vertical =>
      (sizes.foldl
        (fun (acc : List Rect × Int) size =>
          (acc.1 ++ [⟨geo.x + acc.2, geo.y, size, geo.h⟩], acc.2 + size))
        ([], 0)).1

/-- One iteration of the `update_space_positions` per-node loop: pop the
front of the geometry queue (falling back to the root target), update the
node's geometry, enqueue the child rectangles of a group, or issue
`set_tiled(true)`, `set_size(assigned minus inner gaps)` and `configure`
for a non-fullscreen leaf. -/
def uspStep (inner : Int) (rootGeo : Option Rect)
    (acc : Tree × (Nat → WindowState) × List Ev × List (Option Rect)) (id : Nat) :
    Tree × (Nat → WindowState) × List Ev × List (Option Rect) :=
  let (t, ws, evs, queue) := acc
  let (geo, queue) :=
    match queue with
    | g :: rest => (g, rest)
    | [] => (rootGeo, [])
  match t.getNode id with
  | none => (t, ws, evs, queue)
  | some node =>
      match geo with
      | some g =>
          let d := node.data.updateGeometry g
          let t := t.setSlot id (some { node with data := d })
          match d with
          | .group o sizes _ =>
              (t, ws, evs, queue ++ (childRects o sizes g).map some)
          | .mapped w _ =>
              if (ws w).fullscreen then (t, ws, evs, queue)
              else
                (t, updWin ws w (fun st => { st with tiled := true }),
                 evs ++ [.setSize w (g.w - inner * 2, g.h - inner * 2), .configure w],
                 queue)
      | none =>
          if node.data.isGroup then (t, ws, evs, queue ++ [none, none])
          else (t, ws, evs, queue)

/-- `update_space_positions` for one output's tree: skip when empty or when
the root geometry already equals the target, else walk the pre-order
traversal with the geometry queue. -/
def uspTree (gaps : Int × Int) (info : OutputInfo) (t : Tree)
    (ws : Nat → WindowState) (evs : List Ev) :
    Tree × (Nat → WindowState) × List Ev :=
  match t.root with
  | none => (t, ws, evs)
  | some root =>
      let g0 := targetGeo gaps.1 info.usable
      if (t.getNode root).map (fun n => n.data.geometry) = some g0 then (t, ws, evs)
      else
        let (t, ws, evs, _) :=
          t.preOrderIds.foldl (uspStep gaps.2 (some g0)) (t, ws, evs, [])
        (t, ws, evs)

/-- `TilingLayout::update_space_positions` over the whole registry. -/
def LayoutState.updateSpacePositions (s : LayoutState) : LayoutState :=
  let r :=
    s.trees.foldl
      (fun (acc : List (OutputInfo × Tree) × (Nat → WindowState) × List Ev) e =>
        let r := uspTree s.gaps e.1 e.2 acc.2.1 acc.2.2
        (acc.1 ++ [(e.1, r.1)], r.2.1, r.2.2))
      ([], s.windows, s.events)
  { s with trees := r.1, windows := r.2.1, events := r.2.2 }

/-- The tree surgery of `unmap_window_internal` once the owning tree is
found: capture the leaf's parent, sibling position and grandparent, remove
the leaf, then fix up the parent group — proportional size redistribution
when more than 2 children remain, else collapse: remove the group
(orphaning its surviving child) and splice that child under the
grandparent at the group's former sibling index, or promote it to the
root when there is no grandparent. -/
def Tree.removeLeafFix (t : Tree) (nodeId : Nat) : Tree :=
  let parentId := t.parentOf nodeId
  let position := parentId.bind fun p => (t.childrenOf p).indexOf? nodeId
  let parentParentId := parentId.bind fun p => t.parentOf p
  let t := t.removeNodeDrop nodeId
  match parentId with
  | some pid =>
      let groupLen := ((t.getNode pid).map (fun n => n.data.numSizes)).getD 0
      if groupLen > 2 then
        t.modifyNode pid (fun n =>
          { n with data := n.data.removeWindow (position.getD 0) })
      else
        let otherChild := (t.childrenOf pid).headD 0
        let forkPos := parentParentId.bind fun gp =>
          (t.childrenOf gp).indexOf? pid
        let t := t.removeNodeOrphan pid
        let t :=
          match parentParentId with
          | some gp => t.moveToParent otherChild gp
          | none => t.moveToRoot otherChild
        match forkPos with
        | some oldPos => t.makeNthSibling otherChild oldPos
        | none => t
  | none => t

/-- `TilingLayout::unmap_window_internal`: resolve the window's stored node
id, find the first tree where it denotes a leaf holding exactly this
window, and apply the removal surgery there. -/
def LayoutState.unmapWindowInternal (s : LayoutState) (w : Nat) : Bool × LayoutState :=
  match (s.windows w).tilingNodeId with
  | none => (false, s)
  | some nodeId =>
      match s.trees.findIdx? (fun e => e.2.isMappedAt nodeId w) with
      | none => (false, s)
      | some i =>
          match s.trees.getD i ((⟨0, ⟨0, 0⟩, ⟨0, 0, 0, 0⟩, ⟨0, 0, 0, 0⟩⟩, Tree.empty)) with
          | (info, t) =>
              (true, { s with trees := s.trees.set i (info, t.removeLeafFix nodeId) })

/-- `TilingLayout::refresh`: sweep windows whose liveness check fails
through `unmap_window_internal`, then re-propagate geometry. -/
def LayoutState.refresh (s : LayoutState) : LayoutState :=
  let deadWindows := s.mappedWindows.filter fun w => !(s.windows w).alive
  let s := deadWindows.foldl (fun s w => (s.unmapWindowInternal w).2) s
  s.updateSpacePositions

/-- `TilingLayout::map`: insert the window into the active output's tree,
then refresh. -/
def LayoutState.map (s : LayoutState) (w : Nat) (out : Nat)
    (focusStack : List Nat) : LayoutState :=
  (s.mapInternal w out focusStack).refresh

/-- `TilingLayout::unmap`: on success additionally unset the window's tiled
flag and refresh. -/
def LayoutState.unmap (s : LayoutState) (w : Nat) : Bool × LayoutState :=
  match s.unmapWindowInternal w with
  | (true, s) =>
      let s := { s with windows := updWin s.windows w (fun st => { st with tiled := false }) }
      (true, s.refresh)
  | (false, s) => (false, s)

/-- `TilingLayout::update_orientation`: toggle the orientation of the last
active window's parent group, rescaling its sizes by the ratio of the new
to the previous extent (deficit pushed onto the last entry), then refresh. -/
def LayoutState.updateOrientation (s : LayoutState) (newO : Orientation) (out : Nat)
    (focusStack : List Nat) : LayoutState :=
  let s :=
    match s.treeIdx out with
    | none => s
    | some i =>
        match s.trees.getD i ((⟨0, ⟨0, 0⟩, ⟨0, 0, 0, 0⟩, ⟨0, 0, 0, 0⟩⟩, Tree.empty)) with
        | (info, t) =>
            match lastActiveWindow t focusStack with
            | none => s
            | some (_, lastActive) =>
                match t.parentOf lastActive with
                | none => s
                | some g =>
                    let t := t.modifyNode g fun n =>
                      match n.data with
                      | .group o sizes lastGeometry =>
                          let previousLength := lastGeometry.lengthAlong o
                          let newLength := lastGeometry.lengthAlong newO
                          let sizes := sizes.map fun len =>
                            roundRat (len * newLength) previousLength
                          let sum := sizes.sum
                          let sizes :=
                            if sum < newLength then Data.bumpLast sizes (newLength - sum)
                            else sizes
                          { n with data := .group newO sizes lastGeometry }
                      | .mapped _ _ => n
                    { s with trees := s.trees.set i (info, t) }
  s.refresh

/-- `TilingLayout::merge_trees(src, dst, orientation)`: empty `dst` is
replaced by `src` verbatim; otherwise the source root's payload is wrapped
next to the destination root under a fresh group, and all remaining source
nodes are copied depth-first under the copy of their parent. -/
def mergeTreesLoop (src : Tree) : Nat → Tree → List (Nat × Nat) → Tree
  | _, dst, [] => dst
  | 0, dst, _ => dst
  | fuel + 1, dst, (srcId, dstId) :: stack =>
      let (dst, stack) :=
        (src.childrenOf srcId).foldl
          (fun (acc : Tree × List (Nat × Nat)) childId =>
            let d := ((src.getNode childId).map (fun n => n.data)).getD
              (.mapped 0 ⟨0, 0, 0, 0⟩)
            let (dst, newChildId) := acc.1.insertUnder dstId d
            (dst, (childId, newChildId) :: acc.2))
          (dst, stack)
      mergeTreesLoop src fuel dst stack

/-- `TilingLayout::merge_trees`. -/
def mergeTrees (src : Tree) (dst : Tree) (o : Orientation) : Tree :=
  match src.root with
  | none => src
  | some rootId =>
      let rootData := ((src.getNode rootId).map (fun n => n.data)).getD
        (.mapped 0 ⟨0, 0, 0, 0⟩)
      let (dst, intoNodeId) :=
        match dst.root with
        | some root => newGroupOp dst root rootData o
        | none => dst.insertAsRoot rootData
      mergeTreesLoop src (src.nodes.length + 1) dst [(rootId, intoNodeId)]

/-- `TilingLayout::merge(other)`: merge every tree of `other` into the
entry of the matching output (created empty on demand), then refresh. -/
def LayoutState.merge (s : LayoutState) (other : List (OutputInfo × Tree)) : LayoutState :=
  let s := other.foldl
    (fun (s : LayoutState) e =>
      let o : Orientation :=
        if e.1.geometry.w >= e.1.geometry.h then .horizontal else .vertical
      match s.treeIdx e.1.out with
      | some i =>
          match s.trees.getD i ((⟨0, ⟨0, 0⟩, ⟨0, 0, 0, 0⟩, ⟨0, 0, 0, 0⟩⟩, Tree.empty)) with
          | (info, dst) => { s with trees := s.trees.set i (info, mergeTrees e.2 dst o) }
      | none =>
          { s with trees := s.trees ++ [(e.1, mergeTrees e.2 Tree.empty o)] })
    s
  s.refresh

/-! ## The focus-search reference point (`next_focus`) -/

/-- The reference point `center` that `next_focus` derives from the
originating leaf's last geometry before descending into an
orthogonally-oriented subtree. -/
def nextFocusRefPoint (dir : FocusDirection) (geo : Rect) : Pt :=
  match dir with
  | .down => ⟨geo.x + Int.tdiv geo.w 2, geo.y + geo.h⟩
  | .up => ⟨geo.x + geo.w, geo.y⟩
  | .left => ⟨geo.x, geo.y + Int.tdiv geo.h 2⟩
  | .right => ⟨geo.x + geo.w, geo.y + Int.tdiv geo.h 2⟩
  | .out => ⟨geo.x, geo.y⟩

/-- The per-candidate point of the `distance` closure inside the same
descent (the candidate child's geometry is reduced to this point before
measuring the Euclidean distance to the reference point). -/
def nextFocusCandidatePoint (dir : FocusDirection) (geo : Rect) : Pt :=
  match dir with
  | .up => ⟨geo.x + Int.tdiv geo.w 2, geo.y + geo.h⟩
  | .down => ⟨geo.x + geo.w, geo.y⟩
  | .right => ⟨geo.x, geo.y + Int.tdiv geo.h 2⟩
  | .left => ⟨geo.x + geo.w, geo.y + Int.tdiv geo.h 2⟩
  | .out => ⟨geo.x, geo.y⟩

/-- Squared Euclidean distance.  The code compares
`sqrt((dx)^2 + (dy)^2)` values of exact integer points via `total_cmp`;
on such inputs the comparison coincides with comparing the squares. -/
def distSq (a b : Pt) : Int := (a.x - b.x) ^ 2 + (a.y - b.y) ^ 2

/-- `Iterator::min_by` over the children of an orthogonal group: the first
candidate of strictly minimal distance from the reference point. -/
def descendChoice (dir : FocusDirection) (center : Pt)
    (children : List (Nat × Rect)) : Option Nat :=
  match children.map (fun c => (c.1, nextFocusCandidatePoint dir c.2)) with
  | [] => none
  | p :: rest =>
      some ((rest.foldl
        (fun best q => if distSq center q.2 < distSq center best.2 then q else best)
        p).1)

/-- Modelled from the spec's words, for comparison (claim C6): the midpoint
of the edge of the originating leaf's geometry that faces the movement
direction. -/
def specEdgeMidpoint (dir : FocusDirection) (geo : Rect) : Pt :=
  match dir with
  | .up => ⟨geo.x + Int.tdiv geo.w 2, geo.y⟩
  | .down => ⟨geo.x + Int.tdiv geo.w 2, geo.y + geo.h⟩
  | .left => ⟨geo.x, geo.y + Int.tdiv geo.h 2⟩
  | .right => ⟨geo.x + geo.w, geo.y + Int.tdiv geo.h 2⟩
  | .out => ⟨geo.x, geo.y⟩

/-! ## Concrete scenario: two windows on an output of usable area 101 × 50 -/

/-- A fresh registry with one output (id 0) of usable area `101 × 50`,
outer gap 0 and inner gap 4 (the `TilingLayout::new()` gaps), all windows
alive, not fullscreen, untracked. -/
def oddRegistry : LayoutState :=
  { gaps := (0, 4),
    trees := [(⟨0, ⟨0, 0⟩, ⟨0, 0, 101, 50⟩, ⟨0, 0, 101, 50⟩⟩, Tree.empty)],
    windows := fun _ => ⟨true, false, false, none⟩,
    events := [] }

/-- `map(1)` then `map(2)` (window 1 focused) on `oddRegistry`. -/
def oddAfterTwoMaps : LayoutState := (oddRegistry.map 1 0 []).map 2 0 [1]

/-- `Group` invariant of claim C1 for a single tree, phrased on the arena:
every group slot has as many sizes as children, at least two of them, and
the sizes sum to the cached geometry's extent along the orientation. -/
def Tree.groupInvariantHolds (t : Tree) : Bool :=
  t.nodes.all fun s =>
    match s with
    | some ⟨.group o sizes geo, _, children⟩ =>
        sizes.length == children.length && decide (2 ≤ sizes.length) &&
          sizes.sum == geo.lengthAlong o
    | _ => true

/-- The sizes stored in a node payload. -/
def Data.sizesOf : Data → List Int
  | .group _ sizes _ => sizes
  | .mapped _ _ => []

/-- Does any slot of the arena hold a leaf of window `w`? -/
def Tree.holdsWin (t : Tree) (w : Nat) : Bool :=
  t.nodes.any fun s =>
    match s with
    | some n => n.data.isMappedWin w
    | none => false

/-- "The window was found tiled": its stored leaf identifier resolves, in
some registry tree, to a leaf holding exactly this window (the success
condition of `unmap_window_internal`). -/
def foundTiledB (s : LayoutState) (w : Nat) : Bool :=
  match (s.windows w).tilingNodeId with
  | none => false
  | some id => s.trees.any fun e => e.2.isMappedAt id w

/-- Propositional form of `foundTiledB`. -/
def FoundTiled (s : LayoutState) (w : Nat) : Prop :=
  foundTiledB s w = true

instance (s : LayoutState) (w : Nat) : Decidable (FoundTiled s w) :=
  inferInstanceAs (Decidable (_ = true))

/-- Every allocated slot of `t'` carries the same window content as the
matching slot of `t` (slots may have been freed, payload geometry may have
changed, links may differ).  The removal surgery only transforms a tree
this way, which is what makes "no leaf of window `w` survives" provable
compositionally. -/
def SlotsFrom (t t' : Tree) : Prop :=
  ∀ j, t'.getNode j = none ∨
    ∃ n n', t.getNode j = some n ∧ t'.getNode j = some n' ∧
      n'.data.winOf = n.data.winOf

/-- Slot-wise structural agreement: same allocation status, parent link,
child list, window content and group-ness (cached geometries and sizes may
differ). -/
def skelEq (a b : Option TNode) : Prop :=
  match a, b with
  | none, none => True
  | some n, some m =>
      n.parent = m.parent ∧ n.children = m.children ∧
        n.data.winOf = m.data.winOf ∧ n.data.isGroup = m.data.isGroup
  | _, _ => False

/-- Two arenas with identical structure (only node payload geometry/sizes
may differ): same root, same free list, slot-wise `skelEq`. -/
def SameStructure (t t' : Tree) : Prop :=
  t.root = t'.root ∧ t.freeIds = t'.freeIds ∧ List.Forall₂ skelEq t.nodes t'.nodes

/-- A registry whose single tree holds window 9 at node id 3, while window
5 carries the stale back-reference `some 3` (its node id was reused): the
guard inside `unmap_window_internal` must reject it. -/
def staleRegistry : LayoutState :=
  { gaps := (0, 4),
    trees := [(⟨0, ⟨0, 0⟩, ⟨0, 0, 800, 600⟩, ⟨0, 0, 800, 600⟩⟩,
      { nodes := [none, none, none, some ⟨.mapped 9 ⟨0, 0, 800, 600⟩, none, []⟩],
        freeIds := [0, 1, 2],
        root := some 3 })],
    windows := fun i =>
      if i = 5 then ⟨true, false, false, some 3⟩ else ⟨true, false, true, some 3⟩,
    events := [] }

/-- A registry with exactly one tiled window: window 7 at node id 0 of the
single output's tree, with a consistent back-reference. -/
def singleWinRegistry : LayoutState :=
  { gaps := (0, 4),
    trees := [(⟨0, ⟨0, 0⟩, ⟨0, 0, 800, 600⟩, ⟨0, 0, 800, 600⟩⟩,
      { nodes := [some ⟨.mapped 7 ⟨0, 0, 800, 600⟩, none, []⟩],
        freeIds := [],
        root := some 0 })],
    windows := fun i =>
      if i = 7 then ⟨true, false, true, some 0⟩ else ⟨true, false, false, none⟩,
    events := [] }

/-- One output of usable area 800 × 600 used by the merge scenarios. -/
def mergeOut : OutputInfo := ⟨0, ⟨0, 0⟩, ⟨0, 0, 800, 600⟩, ⟨0, 0, 800, 600⟩⟩

/-- A destination registry with exactly one tiled window (window 1) on
`mergeOut`. -/
def mergeDst : LayoutState :=
  { gaps := (0, 4),
    trees := [(mergeOut, ⟨[some ⟨.mapped 1 ⟨0, 0, 800, 600⟩, none, []⟩], [], some 0⟩)],
    windows := fun i =>
      if i = 1 then ⟨true, false, true, some 0⟩ else ⟨true, false, false, none⟩,
    events := [] }

/-- Source registry trees: the same output registered with an *empty*
tree (zero tiled windows, as `map_output` leaves it). -/
def mergeSrcEmpty : List (OutputInfo × Tree) := [(mergeOut, Tree.empty)]

/-- Source registry trees: one tiled window (window 2) on the same
output. -/
def mergeSrcOne : List (OutputInfo × Tree) :=
  [(mergeOut, ⟨[some ⟨.mapped 2 ⟨0, 0, 800, 600⟩, none, []⟩], [], some 0⟩)]

/-- A three-level tree: grandparent group 0 with children `[1, 4]`, child
group 1 (`sizes = [30, 70]`) holding leaves 2 and 3, and leaf 4 directly
under the root — the shape on which removing leaf 2 must collapse group 1
and splice leaf 3 under node 0 at group 1's former sibling index 0. -/
def collapseTree : Tree :=
  { nodes :=
      [some ⟨.group .horizontal [50, 50] ⟨0, 0, 100, 100⟩, none, [1, 4]⟩,
       some ⟨.group .vertical [30, 70] ⟨0, 0, 50, 100⟩, some 0, [2, 3]⟩,
       some ⟨.mapped 9 ⟨0, 0, 50, 30⟩, some 1, []⟩,
       some ⟨.mapped 8 ⟨0, 30, 50, 70⟩, some 1, []⟩,
       some ⟨.mapped 7 ⟨50, 0, 50, 100⟩, some 0, []⟩],
    freeIds := [],
    root := some 0 }

/-! ## Supporting lemmas: pointwise behaviour of the arena operations -/

lemma Tree.getNode_setSlot_none (t : Tree) (i j : Nat) :
    (t.setSlot i none).getNode j = if j = i then none else t.getNode j := by
  simp only [setSlot, getNode, List.getD_eq_getElem?_getD, List.getElem?_set]
  rcases eq_or_ne j i with rfl | h
  · simp only [eq_self_iff_true, if_true]
    split <;> rfl
  · simp [h, Ne.symm h]

lemma Tree.getNode_setSlot_lt (t : Tree) (i j : Nat) (x : Option TNode)
    (hi : i < t.nodes.length) :
    (t.setSlot i x).getNode j = if j = i then x else t.getNode j := by
  simp only [setSlot, getNode, List.getD_eq_getElem?_getD, List.getElem?_set]
  rcases eq_or_ne j i with h | h
  · subst h
    simp [hi]
  · simp [h, Ne.symm h]

lemma Tree.getNode_isSome_lt {t : Tree} {i : Nat} {n : TNode}
    (h : t.getNode i = some n) : i < t.nodes.length := by
  by_contra hge
  rw [getNode, List.getD_eq_getElem?_getD, List.getElem?_eq_none (by omega)] at h
  simp at h

lemma Tree.getNode_modifyNode (t : Tree) (i j : Nat) (f : TNode → TNode) :
    (t.modifyNode i f).getNode j = if j = i then (t.getNode i).map f else t.getNode j := by
  rw [modifyNode]
  rcases h : t.getNode i with _ | n
  · rcases eq_or_ne j i with rfl | hne
    · simp [h]
    · simp [hne]
  · rw [t.getNode_setSlot_lt i j _ (t.getNode_isSome_lt h)]
    rcases eq_or_ne j i with rfl | hne
    · simp [h]
    · simp [hne]

lemma Tree.root_setSlot (t : Tree) (i : Nat) (x : Option TNode) :
    (t.setSlot i x).root = t.root := rfl

lemma Tree.root_modifyNode (t : Tree) (i : Nat) (f : TNode → TNode) :
    (t.modifyNode i f).root = t.root := by
  rw [modifyNode]; rcases t.getNode i with _ | n <;> rfl

lemma Tree.freeIds_setSlot (t : Tree) (i : Nat) (x : Option TNode) :
    (t.setSlot i x).freeIds = t.freeIds := rfl

lemma Tree.freeIds_modifyNode (t : Tree) (i : Nat) (f : TNode → TNode) :
    (t.modifyNode i f).freeIds = t.freeIds := by
  rw [modifyNode]; rcases t.getNode i with _ | n <;> rfl

lemma Tree.length_setSlot (t : Tree) (i : Nat) (x : Option TNode) :
    (t.setSlot i x).nodes.length = t.nodes.length := by
  simp [setSlot]

lemma Tree.length_modifyNode (t : Tree) (i : Nat) (f : TNode → TNode) :
    (t.modifyNode i f).nodes.length = t.nodes.length := by
  rw [modifyNode]; rcases t.getNode i with _ | n
  · rfl
  · simp [setSlot]

/-! ## Supporting lemmas: payload transformations -/

lemma Data.winOf_updateGeometry (d : Data) (g : Rect) :
    (d.updateGeometry g).winOf = d.winOf := by cases d <;> rfl

lemma Data.isGroup_updateGeometry (d : Data) (g : Rect) :
    (d.updateGeometry g).isGroup = d.isGroup := by cases d <;> rfl

lemma Data.geometry_updateGeometry (d : Data) (g : Rect) :
    (d.updateGeometry g).geometry = g := by cases d <;> rfl

lemma Data.winOf_removeWindow (d : Data) (i : Nat) :
    (d.removeWindow i).winOf = d.winOf := by cases d <;> rfl

lemma Data.isGroup_removeWindow (d : Data) (i : Nat) :
    (d.removeWindow i).isGroup = d.isGroup := by cases d <;> rfl

lemma Data.isMappedWin_eq_winOf (w : Nat) (d : Data) :
    d.isMappedWin w = (d.winOf == some w) := by
  cases d with
  | group o s g => rfl
  | mapped w' g => show (w' == w) = (some w' == some w); rfl

/-! ## Supporting lemmas: structural agreement of arenas -/

lemma skelEq_refl (a : Option TNode) : skelEq a a := by
  cases a <;> simp [skelEq]

lemma skelEq_trans {a b c : Option TNode} (h1 : skelEq a b) (h2 : skelEq b c) :
    skelEq a c := by
  cases a <;> cases b <;> cases c <;> simp_all [skelEq]

lemma forall₂_trans_of {α : Type} {R : α → α → Prop}
    (htrans : ∀ a b c, R a b → R b c → R a c) :
    ∀ {l1 l2 l3 : List α}, List.Forall₂ R l1 l2 → List.Forall₂ R l2 l3 →
      List.Forall₂ R l1 l3 := by
  intro l1 l2 l3 h1 h2
  induction h1 generalizing l3 with
  | nil => cases h2; exact .nil
  | cons hab h ih =>
      cases h2 with
      | cons hbc h2 => exact .cons (htrans _ _ _ hab hbc) (ih h2)

lemma forall₂_getD {α β : Type} {R : α → β → Prop} {l : List α} {l' : List β}
    (h : List.Forall₂ R l l') {d : α} {d' : β} (hd : R d d') (i : Nat) :
    R (l.getD i d) (l'.getD i d') := by
  induction h generalizing i with
  | nil => exact hd
  | cons hab h ih =>
      cases i with
      | zero => exact hab
      | succ i => exact ih i

lemma forall₂_set_self {α : Type} {R : α → α → Prop} (hrefl : ∀ x, R x x) :
    ∀ (l : List α) (i : Nat) (b : α), R (l.getD i b) b →
      List.Forall₂ R l (l.set i b) := by
  intro l
  induction l with
  | nil => intro i b _; exact .nil
  | cons x xs ih =>
      intro i b hib
      cases i with
      | zero => exact .cons hib (List.forall₂_same.2 fun y _ => hrefl y)
      | succ i => exact .cons (hrefl x) (ih i b hib)

lemma sameStructure_refl (t : Tree) : SameStructure t t :=
  ⟨Eq.refl _, Eq.refl _, List.forall₂_same.2 fun x _ => skelEq_refl x⟩

lemma sameStructure_trans {a b c : Tree} (h1 : SameStructure a b)
    (h2 : SameStructure b c) : SameStructure a c :=
  ⟨h1.1.trans h2.1, h1.2.1.trans h2.2.1,
   forall₂_trans_of (R := skelEq) (fun _ _ _ hab hbc => skelEq_trans hab hbc) h1.2.2 h2.2.2⟩

lemma SameStructure.getNode {t t' : Tree} (h : SameStructure t t') (id : Nat) :
    skelEq (t.getNode id) (t'.getNode id) :=
  forall₂_getD h.2.2 (by simp [skelEq]) id

lemma SameStructure.length_nodes {t t' : Tree} (h : SameStructure t t') :
    t.nodes.length = t'.nodes.length :=
  h.2.2.length_eq

lemma SameStructure.childrenOf {t t' : Tree} (h : SameStructure t t') (id : Nat) :
    t.childrenOf id = t'.childrenOf id := by
  have := h.getNode id
  rw [Tree.childrenOf, Tree.childrenOf]
  rcases h1 : t.getNode id with _ | n <;> rcases h2 : t'.getNode id with _ | m <;>
    rw [h1, h2] at this <;> simp_all [skelEq]

lemma SameStructure.parentOf {t t' : Tree} (h : SameStructure t t') (id : Nat) :
    t.parentOf id = t'.parentOf id := by
  have := h.getNode id
  rw [Tree.parentOf, Tree.parentOf]
  rcases h1 : t.getNode id with _ | n <;> rcases h2 : t'.getNode id with _ | m <;>
    rw [h1, h2] at this <;> simp_all [skelEq]

lemma SameStructure.isMappedAt {t t' : Tree} (h : SameStructure t t') (id w : Nat) :
    t.isMappedAt id w = t'.isMappedAt id w := by
  have := h.getNode id
  rw [Tree.isMappedAt, Tree.isMappedAt]
  rcases h1 : t.getNode id with _ | n <;> rcases h2 : t'.getNode id with _ | m <;>
    rw [h1, h2] at this <;>
    simp_all [skelEq, Data.isMappedWin_eq_winOf]

lemma SameStructure.preOrderAux {t t' : Tree} (h : SameStructure t t') :
    ∀ (fuel : Nat) (stack : List Nat), t.preOrderAux fuel stack = t'.preOrderAux fuel stack := by
  intro fuel
  induction fuel with
  | zero => intro stack; cases stack <;> rfl
  | succ fuel ih =>
      intro stack
      cases stack with
      | nil => rfl
      | cons id rest =>
          have hsk := h.getNode id
          rw [Tree.preOrderAux, Tree.preOrderAux]
          rcases h1 : t.getNode id with _ | n <;> rcases h2 : t'.getNode id with _ | m <;>
            rw [h1, h2] at hsk <;> simp_all [skelEq]

lemma SameStructure.preOrderIds {t t' : Tree} (h : SameStructure t t') :
    t.preOrderIds = t'.preOrderIds := by
  rw [Tree.preOrderIds, Tree.preOrderIds, ← h.1, h.length_nodes]
  cases t.root with
  | none => rfl
  | some r => exact h.preOrderAux _ _

lemma SameStructure.mappedWindows {t t' : Tree} (h : SameStructure t t') :
    t.mappedWindows = t'.mappedWindows := by
  rw [Tree.mappedWindows, Tree.mappedWindows, ← h.preOrderIds]
  apply List.filterMap_congr
  intro id _
  have := h.getNode id
  rcases h1 : t.getNode id with _ | n <;> rcases h2 : t'.getNode id with _ | m <;>
    rw [h1, h2] at this <;> simp_all [skelEq]

lemma forall₂_skelEq_any_win {l l' : List (Option TNode)}
    (h : List.Forall₂ skelEq l l') (w : Nat) :
    (l.any fun s => match s with | some n => n.data.isMappedWin w | none => false) =
      (l'.any fun s => match s with | some n => n.data.isMappedWin w | none => false) := by
  induction h with
  | nil => rfl
  | cons hab hres ih =>
      rename_i a b l1 l2
      rw [List.any_cons, List.any_cons, ih]
      congr 1
      cases a <;> cases b <;> simp_all [skelEq, Data.isMappedWin_eq_winOf]

lemma SameStructure.holdsWin {t t' : Tree} (h : SameStructure t t') (w : Nat) :
    t.holdsWin w = t'.holdsWin w :=
  forall₂_skelEq_any_win h.2.2 w

lemma SameStructure.root_eq {t t' : Tree} (h : SameStructure t t') :
    t.root = t'.root := h.1

/-! ## Supporting lemmas: geometry propagation preserves structure -/

lemma Tree.getD_eq_of_getNode_some {t : Tree} {id : Nat} {n : TNode}
    (h : t.getNode id = some n) (d : Option TNode) : t.nodes.getD id d = some n := by
  rw [List.getD_eq_getElem?_getD]
  rw [Tree.getNode, List.getD_eq_getElem?_getD] at h
  rcases h' : t.nodes[id]? with _ | s
  · rw [h'] at h; simp at h
  · rw [h'] at h; simpa using h

lemma sameStructure_setSlot_dataUpdate {t : Tree} {id : Nat} {node : TNode}
    (h : t.getNode id = some node) (g : Rect) :
    SameStructure t (t.setSlot id (some { node with data := node.data.updateGeometry g })) := by
  refine ⟨Eq.refl _, Eq.refl _, forall₂_set_self skelEq_refl _ _ _ ?_⟩
  rw [t.getD_eq_of_getNode_some h]
  exact ⟨Eq.refl _, Eq.refl _, (Data.winOf_updateGeometry _ _).symm,
    (Data.isGroup_updateGeometry _ _).symm⟩

lemma uspStep_sameStructure (inner : Int) (g0 : Option Rect)
    (acc : Tree × (Nat → WindowState) × List Ev × List (Option Rect)) (id : Nat) :
    SameStructure acc.1 (uspStep inner g0 acc id).1 := by
  obtain ⟨t, ws, evs, queue⟩ := acc
  rw [uspStep.eq_def]
  dsimp only
  rcases queue with _ | ⟨g, rest⟩ <;> rcases hn : t.getNode id with _ | node <;> dsimp only
  · exact sameStructure_refl t
  · rcases g0 with _ | g0r
    · dsimp only
      split <;> exact sameStructure_refl t
    · dsimp only
      rcases hd : node.data.updateGeometry g0r with ⟨o, sizes, lg⟩ | ⟨w, lg⟩ <;> dsimp only
      · have hs := sameStructure_setSlot_dataUpdate hn g0r
        rw [hd] at hs
        exact hs
      · have hs := sameStructure_setSlot_dataUpdate hn g0r
        rw [hd] at hs
        split <;> exact hs
  · exact sameStructure_refl t
  · rcases g with _ | gr
    · dsimp only
      split <;> exact sameStructure_refl t
    · dsimp only
      rcases hd : node.data.updateGeometry gr with ⟨o, sizes, lg⟩ | ⟨w, lg⟩ <;> dsimp only
      · have hs := sameStructure_setSlot_dataUpdate hn gr
        rw [hd] at hs
        exact hs
      · have hs := sameStructure_setSlot_dataUpdate hn gr
        rw [hd] at hs
        split <;> exact hs

lemma uspStep_windows_fields (inner : Int) (g0 : Option Rect)
    (acc : Tree × (Nat → WindowState) × List Ev × List (Option Rect)) (id : Nat) (i : Nat) :
    ((uspStep inner g0 acc id).2.1 i).tilingNodeId = (acc.2.1 i).tilingNodeId ∧
    ((uspStep inner g0 acc id).2.1 i).alive = (acc.2.1 i).alive ∧
    ((uspStep inner g0 acc id).2.1 i).fullscreen = (acc.2.1 i).fullscreen := by
  obtain ⟨t, ws, evs, queue⟩ := acc
  rw [uspStep.eq_def]
  dsimp only
  rcases queue with _ | ⟨g, rest⟩ <;> rcases hn : t.getNode id with _ | node <;> dsimp only
  · exact ⟨rfl, rfl, rfl⟩
  · rcases g0 with _ | g0r
    · dsimp only
      split <;> exact ⟨rfl, rfl, rfl⟩
    · dsimp only
      rcases node.data.updateGeometry g0r with ⟨o, sizes, lg⟩ | ⟨w, lg⟩ <;> dsimp only
      · exact ⟨rfl, rfl, rfl⟩
      · split
        · exact ⟨rfl, rfl, rfl⟩
        · simp only [updWin]
          split <;> exact ⟨rfl, rfl, rfl⟩
  · exact ⟨rfl, rfl, rfl⟩
  · rcases g with _ | gr
    · dsimp only
      split <;> exact ⟨rfl, rfl, rfl⟩
    · dsimp only
      rcases node.data.updateGeometry gr with ⟨o, sizes, lg⟩ | ⟨w, lg⟩ <;> dsimp only
      · exact ⟨rfl, rfl, rfl⟩
      · split
        · exact ⟨rfl, rfl, rfl⟩
        · simp only [updWin]
          split <;> exact ⟨rfl, rfl, rfl⟩

lemma foldl_uspStep_sameStructure (inner : Int) (g0 : Option Rect) (ids : List Nat)
    (acc : Tree × (Nat → WindowState) × List Ev × List (Option Rect)) :
    SameStructure acc.1 ((ids.foldl (uspStep inner g0) acc)).1 := by
  induction ids generalizing acc with
  | nil => exact sameStructure_refl _
  | cons id rest ih =>
      exact sameStructure_trans (uspStep_sameStructure inner g0 acc id) (ih _)

lemma foldl_uspStep_windows_fields (inner : Int) (g0 : Option Rect) (ids : List Nat)
    (acc : Tree × (Nat → WindowState) × List Ev × List (Option Rect)) (i : Nat) :
    (((ids.foldl (uspStep inner g0) acc)).2.1 i).tilingNodeId = (acc.2.1 i).tilingNodeId ∧
    (((ids.foldl (uspStep inner g0) acc)).2.1 i).alive = (acc.2.1 i).alive ∧
    (((ids.foldl (uspStep inner g0) acc)).2.1 i).fullscreen = (acc.2.1 i).fullscreen := by
  induction ids generalizing acc with
  | nil => exact ⟨rfl, rfl, rfl⟩
  | cons id rest ih =>
      have hstep := uspStep_windows_fields inner g0 acc id i
      have hrest := ih (uspStep inner g0 acc id)
      exact ⟨hrest.1.trans hstep.1, hrest.2.1.trans hstep.2.1, hrest.2.2.trans hstep.2.2⟩

lemma uspTree_sameStructure (gaps : Int × Int) (info : OutputInfo) (t : Tree)
    (ws : Nat → WindowState) (evs : List Ev) :
    SameStructure t (uspTree gaps info t ws evs).1 := by
  rw [uspTree]
  rcases t.root with _ | root <;> dsimp only
  · exact sameStructure_refl t
  · split
    · exact sameStructure_refl t
    · have h := foldl_uspStep_sameStructure gaps.2 (some (targetGeo gaps.1 info.usable))
        t.preOrderIds (t, ws, evs, [])
      rcases hf : t.preOrderIds.foldl (uspStep gaps.2 (some (targetGeo gaps.1 info.usable)))
          (t, ws, evs, []) with ⟨t2, ws2, evs2, q2⟩
      rw [hf] at h
      exact h

lemma uspTree_windows_fields (gaps : Int × Int) (info : OutputInfo) (t : Tree)
    (ws : Nat → WindowState) (evs : List Ev) (i : Nat) :
    (((uspTree gaps info t ws evs)).2.1 i).tilingNodeId = (ws i).tilingNodeId ∧
    (((uspTree gaps info t ws evs)).2.1 i).alive = (ws i).alive ∧
    (((uspTree gaps info t ws evs)).2.1 i).fullscreen = (ws i).fullscreen := by
  rw [uspTree]
  rcases t.root with _ | root <;> dsimp only
  · exact ⟨rfl, rfl, rfl⟩
  · split
    · exact ⟨rfl, rfl, rfl⟩
    · have h := foldl_uspStep_windows_fields gaps.2 (some (targetGeo gaps.1 info.usable))
        t.preOrderIds (t, ws, evs, []) i
      rcases hf : t.preOrderIds.foldl (uspStep gaps.2 (some (targetGeo gaps.1 info.usable)))
          (t, ws, evs, []) with ⟨t2, ws2, evs2, q2⟩
      rw [hf] at h
      exact h

lemma usp_fold_rel (gaps : Int × Int) (entries : List (OutputInfo × Tree)) :
    ∀ acc : List (OutputInfo × Tree) × (Nat → WindowState) × List Ev,
      ∃ l, (entries.foldl
          (fun acc e =>
            let r := uspTree gaps e.1 e.2 acc.2.1 acc.2.2
            (acc.1 ++ [(e.1, r.1)], r.2.1, r.2.2))
          acc).1 = acc.1 ++ l ∧
        List.Forall₂ (fun e e' => e.1 = e'.1 ∧ SameStructure e.2 e'.2) entries l := by
  induction entries with
  | nil => exact fun acc => ⟨[], by simp, .nil⟩
  | cons e rest ih =>
      intro acc
      obtain ⟨l, h1, h2⟩ := ih
        (acc.1 ++ [(e.1, (uspTree gaps e.1 e.2 acc.2.1 acc.2.2).1)],
         (uspTree gaps e.1 e.2 acc.2.1 acc.2.2).2.1,
         (uspTree gaps e.1 e.2 acc.2.1 acc.2.2).2.2)
      refine ⟨(e.1, (uspTree gaps e.1 e.2 acc.2.1 acc.2.2).1) :: l, ?_, ?_⟩
      · rw [List.foldl_cons]
        rw [h1, List.append_assoc]
        rfl
      · exact .cons ⟨rfl, uspTree_sameStructure _ _ _ _ _⟩ h2

lemma usp_fold_windows (gaps : Int × Int) (entries : List (OutputInfo × Tree)) :
    ∀ (acc : List (OutputInfo × Tree) × (Nat → WindowState) × List Ev) (i : Nat),
      ((entries.foldl
          (fun acc e =>
            let r := uspTree gaps e.1 e.2 acc.2.1 acc.2.2
            (acc.1 ++ [(e.1, r.1)], r.2.1, r.2.2))
          acc).2.1 i).tilingNodeId = (acc.2.1 i).tilingNodeId ∧
      ((entries.foldl
          (fun acc e =>
            let r := uspTree gaps e.1 e.2 acc.2.1 acc.2.2
            (acc.1 ++ [(e.1, r.1)], r.2.1, r.2.2))
          acc).2.1 i).alive = (acc.2.1 i).alive ∧
      ((entries.foldl
          (fun acc e =>
            let r := uspTree gaps e.1 e.2 acc.2.1 acc.2.2
            (acc.1 ++ [(e.1, r.1)], r.2.1, r.2.2))
          acc).2.1 i).fullscreen = (acc.2.1 i).fullscreen := by
  induction entries with
  | nil => exact fun acc i => ⟨rfl, rfl, rfl⟩
  | cons e rest ih =>
      intro acc i
      have hstep := uspTree_windows_fields gaps e.1 e.2 acc.2.1 acc.2.2 i
      have hrest := ih
        (acc.1 ++ [(e.1, (uspTree gaps e.1 e.2 acc.2.1 acc.2.2).1)],
         (uspTree gaps e.1 e.2 acc.2.1 acc.2.2).2.1,
         (uspTree gaps e.1 e.2 acc.2.1 acc.2.2).2.2) i
      exact ⟨hrest.1.trans hstep.1, hrest.2.1.trans hstep.2.1, hrest.2.2.trans hstep.2.2⟩

lemma usp_trees_rel (s : LayoutState) :
    List.Forall₂ (fun e e' => e.1 = e'.1 ∧ SameStructure e.2 e'.2)
      s.trees (s.updateSpacePositions).trees := by
  obtain ⟨l, h1, h2⟩ := usp_fold_rel s.gaps s.trees ([], s.windows, s.events)
  show List.Forall₂ _ s.trees (s.trees.foldl _ ([], s.windows, s.events)).1
  rw [h1]
  simpa using h2

lemma usp_windows_fields (s : LayoutState) (i : Nat) :
    (((s.updateSpacePositions).windows) i).tilingNodeId = (s.windows i).tilingNodeId ∧
    (((s.updateSpacePositions).windows) i).alive = (s.windows i).alive ∧
    (((s.updateSpacePositions).windows) i).fullscreen = (s.windows i).fullscreen :=
  usp_fold_windows s.gaps s.trees ([], s.windows, s.events) i

lemma usp_gaps (s : LayoutState) : (s.updateSpacePositions).gaps = s.gaps := rfl

lemma unmapWindowInternal_windows (s : LayoutState) (w : Nat) :
    ((s.unmapWindowInternal w).2).windows = s.windows := by
  rw [LayoutState.unmapWindowInternal]
  rcases (s.windows w).tilingNodeId with _ | nid
  · rfl
  · dsimp only
    generalize s.trees.findIdx? (fun e => e.2.isMappedAt nid w) = r
    rcases r with _ | i
    · rfl
    · rfl

lemma sweep_windows (l : List Nat) (s : LayoutState) :
    ((l.foldl (fun s w => (s.unmapWindowInternal w).2) s)).windows = s.windows := by
  induction l generalizing s with
  | nil => rfl
  | cons w rest ih => rw [List.foldl_cons, ih, unmapWindowInternal_windows]

lemma refresh_eq_usp_of_alive (s : LayoutState)
    (hal : ∀ i, (s.windows i).alive = true) :
    s.refresh = s.updateSpacePositions := by
  rw [LayoutState.refresh]
  have hd : s.mappedWindows.filter (fun w => !(s.windows w).alive) = [] :=
    List.filter_eq_nil_iff.2 (fun w _ => by simp [hal w])
  rw [hd]
  rfl

lemma refresh_windows_fields (s : LayoutState) (i : Nat) :
    (((s.refresh).windows) i).tilingNodeId = (s.windows i).tilingNodeId ∧
    (((s.refresh).windows) i).alive = (s.windows i).alive ∧
    (((s.refresh).windows) i).fullscreen = (s.windows i).fullscreen := by
  rw [LayoutState.refresh]
  have h1 := sweep_windows (s.mappedWindows.filter fun w => !(s.windows w).alive) s
  have h2 := usp_windows_fields
    ((s.mappedWindows.filter fun w => !(s.windows w).alive).foldl
      (fun s w => (s.unmapWindowInternal w).2) s) i
  rw [h1] at h2
  exact h2

/-! ## Supporting lemmas: find, window occurrence and removal -/

lemma findIdx?_eq_none_forall {α : Type} {p : α → Bool} {l : List α} :
    ∀ {k : Nat}, List.findIdx? p l k = none → ∀ x ∈ l, p x = false := by
  induction l with
  | nil => intro k _ x hx; cases hx
  | cons a as ih =>
      intro k h x hx
      rw [List.findIdx?_cons] at h
      by_cases hp : p a = true
      · rw [if_pos hp] at h; cases h
      · rw [if_neg hp] at h
        rcases List.mem_cons.1 hx with rfl | hx
        · exact Bool.eq_false_iff.2 hp
        · exact ih h x hx

lemma findIdx?_some_pred {α : Type} {p : α → Bool} {l : List α} :
    ∀ {k i : Nat}, List.findIdx? p l k = some i → k ≤ i ∧
      ∃ h : i - k < l.length, p (l[i - k]) = true := by
  induction l with
  | nil => intro k i h; rw [List.findIdx?_nil] at h; cases h
  | cons a as ih =>
      intro k i h
      rw [List.findIdx?_cons] at h
      by_cases hp : p a = true
      · rw [if_pos hp] at h
        cases h
        exact ⟨Nat.le_refl _, by simpa using hp⟩
      · rw [if_neg hp] at h
        obtain ⟨h1, h2, h3⟩ := ih h
        have hk : k < i := by omega
        refine ⟨Nat.le_of_lt hk, ?_⟩
        have hik : i - k = (i - (k + 1)) + 1 := by omega
        rw [hik]
        exact ⟨by simpa using h2, by simpa using h3⟩

lemma findIdx?_append_of {α : Type} (p : α → Bool) (pre : List α) (x : α)
    (post : List α) (hpre : ∀ e ∈ pre, p e = false) (hx : p x = true) :
    ∀ k, List.findIdx? p (pre ++ x :: post) k = some (k + pre.length) := by
  induction pre with
  | nil => intro k; rw [List.nil_append, List.findIdx?_cons, if_pos hx]; rfl
  | cons a as ih =>
      intro k
      rw [List.cons_append, List.findIdx?_cons,
        if_neg (by simp [hpre a (List.mem_cons_self a as)]),
        ih (fun e he => hpre e (List.mem_cons_of_mem _ he)) (k + 1)]
      congr 1
      simp
      omega

lemma Tree.holdsWin_false_iff (t : Tree) (w : Nat) :
    t.holdsWin w = false ↔ ∀ j, t.isMappedAt j w = false := by
  rw [Tree.holdsWin, List.any_eq_false]
  constructor
  · intro h j
    rw [Tree.isMappedAt]
    rcases hj : t.getNode j with _ | n
    · rfl
    · have : some n ∈ t.nodes := by
        rw [Tree.getNode, List.getD_eq_getElem?_getD] at hj
        rcases hj2 : t.nodes[j]? with _ | s
        · rw [hj2] at hj; cases hj
        · rw [hj2] at hj
          simp only [Option.getD_some] at hj
          subst hj
          exact List.getElem?_mem hj2
      have := h _ this
      simpa using this
  · intro h x hx
    rcases x with _ | n
    · simp
    · obtain ⟨j, hj, hje⟩ := List.mem_iff_getElem.1 hx
      have hj2 : t.getNode j = some n := by
        rw [Tree.getNode, List.getD_eq_getElem?_getD, List.getElem?_eq_getElem hj, hje]
        rfl
      have := h j
      rw [Tree.isMappedAt, hj2] at this
      simpa using this

lemma Tree.holdsWin_false_node {t : Tree} {w id : Nat} {n : TNode}
    (h : t.holdsWin w = false) (hn : t.getNode id = some n) :
    n.data.isMappedWin w = false := by
  have := (t.holdsWin_false_iff w).1 h id
  rwa [Tree.isMappedAt, hn] at this

lemma slotsFrom_refl (t : Tree) : SlotsFrom t t := by
  intro j
  rcases h : t.getNode j with _ | n
  · exact Or.inl rfl
  · exact Or.inr ⟨n, n, Eq.refl _, Eq.refl _, Eq.refl _⟩

lemma slotsFrom_trans {a b c : Tree} (h1 : SlotsFrom a b) (h2 : SlotsFrom b c) :
    SlotsFrom a c := by
  intro j
  rcases h2 j with h | ⟨n, n', hb, hc, hw⟩
  · exact Or.inl h
  · rcases h1 j with h | ⟨m, m', ha, hb2, hw2⟩
    · rw [h] at hb; cases hb
    · rw [hb2] at hb
      cases hb
      exact Or.inr ⟨m, n', ha, hc, hw.trans hw2⟩

lemma SlotsFrom.modifyNode {t : Tree} (i : Nat) (f : TNode → TNode)
    (hf : ∀ n, (f n).data.winOf = n.data.winOf) :
    SlotsFrom t (t.modifyNode i f) := by
  intro j
  rw [t.getNode_modifyNode i j f]
  rcases eq_or_ne j i with rfl | hne
  · rw [if_pos rfl]
    rcases h : t.getNode j with _ | n
    · exact Or.inl rfl
    · exact Or.inr ⟨n, f n, Eq.refl _, Eq.refl _, hf n⟩
  · rw [if_neg hne]
    rcases h : t.getNode j with _ | n
    · exact Or.inl rfl
    · exact Or.inr ⟨n, n, Eq.refl _, Eq.refl _, Eq.refl _⟩

lemma SlotsFrom.setSlot_none {t : Tree} (i : Nat) :
    SlotsFrom t (t.setSlot i none) := by
  intro j
  rw [t.getNode_setSlot_none i j]
  rcases eq_or_ne j i with rfl | hne
  · exact Or.inl (if_pos rfl)
  · rw [if_neg hne]
    rcases h : t.getNode j with _ | n
    · exact Or.inl rfl
    · exact Or.inr ⟨n, n, Eq.refl _, Eq.refl _, Eq.refl _⟩

lemma SlotsFrom.clearFold {t : Tree} (ids : List Nat) :
    SlotsFrom t (ids.foldl (fun t i => t.setSlot i none) t) := by
  induction ids generalizing t with
  | nil => exact slotsFrom_refl t
  | cons i rest ih => exact slotsFrom_trans (SlotsFrom.setSlot_none i) ih

lemma SlotsFrom.getNode_imp {t t' : Tree} (h : SlotsFrom t t')
    (hbase : ∀ j, t.isMappedAt j w = false) : ∀ j, t'.isMappedAt j w = false := by
  intro j
  rw [Tree.isMappedAt]
  rcases h j with hn | ⟨n, n', ha, hb, hw⟩
  · rw [hn]
  · rw [hb]
    dsimp only
    have hb2 := hbase j
    rw [Tree.isMappedAt, ha] at hb2
    dsimp only at hb2
    rw [Data.isMappedWin_eq_winOf] at hb2 ⊢
    rw [hw]
    exact hb2

lemma SlotsFrom.isMappedAt_false {t t' : Tree} (h : SlotsFrom t t') {w j : Nat}
    (hj : t.isMappedAt j w = false) : t'.isMappedAt j w = false := by
  rw [Tree.isMappedAt]
  rcases h j with hn | ⟨n, n', ha, hb, hw⟩
  · rw [hn]
  · rw [hb]
    dsimp only
    rw [Tree.isMappedAt, ha] at hj
    dsimp only at hj
    rw [Data.isMappedWin_eq_winOf] at hj ⊢
    rw [hw]
    exact hj

lemma SlotsFrom.detach (t : Tree) (id : Nat) : SlotsFrom t (t.detachFromParent id) := by
  rw [Tree.detachFromParent]
  rcases t.parentOf id with _ | p
  · exact slotsFrom_refl t
  · exact SlotsFrom.modifyNode p _ (fun n => rfl)

lemma SlotsFrom.modifyFold (t : Tree) (ids : List Nat) (f : TNode → TNode)
    (hf : ∀ n, (f n).data.winOf = n.data.winOf) :
    SlotsFrom t (ids.foldl (fun t c => t.modifyNode c f) t) := by
  induction ids generalizing t with
  | nil => exact slotsFrom_refl t
  | cons c rest ih => exact slotsFrom_trans (SlotsFrom.modifyNode c f hf) (ih _)

lemma SlotsFrom.reconfig (t : Tree) (fi : List Nat) (r : Option Nat) :
    SlotsFrom t { t with freeIds := fi, root := r } :=
  slotsFrom_refl t

lemma SlotsFrom.removeNodeDrop (t : Tree) (id : Nat) :
    SlotsFrom t (t.removeNodeDrop id) := by
  rw [Tree.removeNodeDrop]
  rcases t.getNode id with _ | n
  · exact slotsFrom_refl t
  · dsimp only
    exact slotsFrom_trans
      (slotsFrom_trans (SlotsFrom.detach t id) (SlotsFrom.clearFold _))
      (SlotsFrom.reconfig _ _ _)

lemma SlotsFrom.removeNodeOrphan (t : Tree) (id : Nat) :
    SlotsFrom t (t.removeNodeOrphan id) := by
  rw [Tree.removeNodeOrphan]
  rcases t.getNode id with _ | n
  · exact slotsFrom_refl t
  · dsimp only
    exact slotsFrom_trans
      (slotsFrom_trans
        (slotsFrom_trans (SlotsFrom.detach t id)
          (SlotsFrom.modifyFold _ n.children (fun m => { m with parent := none })
            (fun m => rfl)))
        (SlotsFrom.setSlot_none id))
      (SlotsFrom.reconfig _ _ _)

lemma SlotsFrom.moveToParent (t : Tree) (id p : Nat) :
    SlotsFrom t (t.moveToParent id p) := by
  rw [Tree.moveToParent]
  rcases t.getNode id with _ | n
  · exact slotsFrom_refl t
  · dsimp only
    exact slotsFrom_trans
      (slotsFrom_trans (SlotsFrom.detach t id)
        (SlotsFrom.modifyNode id (fun n => { n with parent := some p })
          (fun n => rfl)))
      (SlotsFrom.modifyNode p (fun n => { n with children := n.children ++ [id] })
        (fun n => rfl))

lemma SlotsFrom.moveToRoot (t : Tree) (id : Nat) :
    SlotsFrom t (t.moveToRoot id) := by
  rw [Tree.moveToRoot]
  rcases t.getNode id with _ | n
  · exact slotsFrom_refl t
  · dsimp only
    have base : SlotsFrom t
        ((t.detachFromParent id).modifyNode id (fun n => { n with parent := none })) :=
      slotsFrom_trans (SlotsFrom.detach t id)
        (SlotsFrom.modifyNode id (fun n => { n with parent := none }) (fun n => rfl))
    rcases ((t.detachFromParent id).modifyNode id
        (fun n => { n with parent := none })).root with _ | r <;> dsimp only
    · exact slotsFrom_trans base (SlotsFrom.reconfig _ _ _)
    · split
      · exact base
      · exact slotsFrom_trans base
          (slotsFrom_trans
            (slotsFrom_trans
              (SlotsFrom.modifyNode r (fun n => { n with parent := some id })
                (fun n => rfl))
              (SlotsFrom.modifyNode id
                (fun n => { n with children := n.children ++ [r] }) (fun n => rfl)))
            (SlotsFrom.reconfig _ _ _))

lemma SlotsFrom.makeNthSibling (t : Tree) (id n : Nat) :
    SlotsFrom t (t.makeNthSibling id n) := by
  rw [Tree.makeNthSibling]
  rcases t.parentOf id with _ | p
  · exact slotsFrom_refl t
  · exact SlotsFrom.modifyNode p
      (fun m => { m with children := (m.children.erase id).insertIdx n id })
      (fun m => rfl)

lemma Tree.getNode_clearFold (ids : List Nat) (t : Tree) (j : Nat) :
    ((ids.foldl (fun t i => t.setSlot i none) t)).getNode j =
      if j ∈ ids then none else t.getNode j := by
  induction ids generalizing t with
  | nil => simp
  | cons i rest ih =>
      rw [List.foldl_cons, ih]
      by_cases hj : j ∈ rest
      · simp [hj]
      · rcases eq_or_ne j i with rfl | hne
        · simp [hj, Tree.getNode_setSlot_none]
        · simp [hj, hne, Tree.getNode_setSlot_none]

lemma Tree.mem_preOrderAux_head (t : Tree) (fuel : Nat) (id : Nat) (rest : List Nat) :
    id ∈ t.preOrderAux (fuel + 1) (id :: rest) := by
  rw [Tree.preOrderAux]
  rcases t.getNode id with _ | n
  · exact List.mem_cons_self _ _
  · exact List.mem_cons_self _ _

lemma removeNodeDrop_isMappedAt_false {t : Tree} {nid w : Nat}
    (hnode : t.isMappedAt nid w = true)
    (hothers : ∀ j, j ≠ nid → t.isMappedAt j w = false) :
    ∀ j, (t.removeNodeDrop nid).isMappedAt j w = false := by
  intro j
  have hn : ∃ n, t.getNode nid = some n := by
    rw [Tree.isMappedAt] at hnode
    rcases h : t.getNode nid with _ | n
    · rw [h] at hnode; cases hnode
    · exact ⟨n, Eq.refl _⟩
  obtain ⟨n, hn⟩ := hn
  have hgn : (t.removeNodeDrop nid).getNode j =
      if j ∈ t.preOrderAux t.nodes.length [nid] then none
      else (t.detachFromParent nid).getNode j := by
    rw [Tree.removeNodeDrop, hn]
    dsimp only
    exact Tree.getNode_clearFold _ _ j
  by_cases hj : j ∈ t.preOrderAux t.nodes.length [nid]
  · rw [Tree.isMappedAt, hgn, if_pos hj]
  · have hjne : j ≠ nid := by
      intro he
      apply hj
      obtain ⟨f, hf⟩ : ∃ f, t.nodes.length = f + 1 :=
        ⟨t.nodes.length - 1, by have := Tree.getNode_isSome_lt hn; omega⟩
      rw [hf, he]
      exact t.mem_preOrderAux_head f nid []
    have hdet := (SlotsFrom.detach t nid).isMappedAt_false (hothers j hjne)
    rw [Tree.isMappedAt, hgn, if_neg hj]
    rw [Tree.isMappedAt] at hdet
    exact hdet

lemma removeLeafFix_isMappedAt_false {t : Tree} {nid w : Nat}
    (hnode : t.isMappedAt nid w = true)
    (hothers : ∀ j, j ≠ nid → t.isMappedAt j w = false) :
    ∀ j, (t.removeLeafFix nid).isMappedAt j w = false := by
  have h1 := removeNodeDrop_isMappedAt_false hnode hothers
  intro j
  rw [Tree.removeLeafFix]
  dsimp only
  rcases t.parentOf nid with _ | pid <;> dsimp only [Option.bind]
  · exact h1 j
  · split
    · exact (SlotsFrom.modifyNode pid _
        (fun n => Data.winOf_removeWindow _ _)).isMappedAt_false (h1 j)
    · rcases t.parentOf pid with _ | gp <;> dsimp only [Option.bind]
      · exact (slotsFrom_trans (SlotsFrom.removeNodeOrphan _ _)
          (SlotsFrom.moveToRoot _ _)).isMappedAt_false (h1 j)
      · rcases ((t.removeNodeDrop nid).childrenOf gp).indexOf? pid with _ | fp <;>
          dsimp only
        · exact (slotsFrom_trans (SlotsFrom.removeNodeOrphan _ _)
            (SlotsFrom.moveToParent _ _ _)).isMappedAt_false (h1 j)
        · exact (slotsFrom_trans
            (slotsFrom_trans (SlotsFrom.removeNodeOrphan _ _)
              (SlotsFrom.moveToParent _ _ _))
            (SlotsFrom.makeNthSibling _ _ _)).isMappedAt_false (h1 j)

lemma removeLeafFix_holdsWin_false {t : Tree} {nid w : Nat}
    (hnode : t.isMappedAt nid w = true)
    (hothers : ∀ j, j ≠ nid → t.isMappedAt j w = false) :
    (t.removeLeafFix nid).holdsWin w = false :=
  (Tree.holdsWin_false_iff _ _).2 (removeLeafFix_isMappedAt_false hnode hothers)

lemma updWin_ne (ws : Nat → WindowState) (v w : Nat) (f : WindowState → WindowState)
    (h : w ≠ v) : updWin ws v f w = ws w := by
  simp [updWin, h]

lemma Data.winOf_of_updateGeometry_mapped {d : Data} {g lg : Rect} {v : Nat}
    (h : d.updateGeometry g = .mapped v lg) : d.winOf = some v := by
  have hw := Data.winOf_updateGeometry d g
  rw [h] at hw
  exact hw.symm

lemma Tree.holdsWin_true_iff (t : Tree) (w : Nat) :
    t.holdsWin w = true ↔ ∃ j, t.isMappedAt j w = true := by
  constructor
  · intro h
    by_contra hc
    push_neg at hc
    have : t.holdsWin w = false :=
      (t.holdsWin_false_iff w).2 fun j => by
        have := hc j
        exact Bool.eq_false_iff.2 this
    rw [this] at h
    cases h
  · intro ⟨j, hj⟩
    by_contra hc
    have hf : t.holdsWin w = false := Bool.eq_false_iff.2 hc
    have := (t.holdsWin_false_iff w).1 hf j
    rw [hj] at this
    cases this

lemma uspStep_untouched (inner : Int) (g0 : Option Rect)
    (acc : Tree × (Nat → WindowState) × List Ev × List (Option Rect)) (id w : Nat)
    (ht : acc.1.holdsWin w = false) :
    (uspStep inner g0 acc id).2.1 w = acc.2.1 w := by
  obtain ⟨t, ws, evs, queue⟩ := acc
  dsimp only at ht
  rw [uspStep.eq_def]
  dsimp only
  rcases queue with _ | ⟨g, rest⟩ <;> rcases hn : t.getNode id with _ | node <;> dsimp only
  · rcases g0 with _ | g0r
    · dsimp only
      split <;> rfl
    · dsimp only
      rcases hd : node.data.updateGeometry g0r with ⟨o, sizes, lg⟩ | ⟨w2, lg⟩ <;> dsimp only
      · split
        · rfl
        · dsimp only
          have hw2 : w ≠ w2 := by
            have hwn := Tree.holdsWin_false_node ht hn
            rw [Data.isMappedWin_eq_winOf, Data.winOf_of_updateGeometry_mapped hd] at hwn
            simp only [Option.some_beq_some] at hwn
            intro he
            rw [he] at hwn
            simp at hwn
          exact updWin_ne ws w2 w _ hw2
  · rcases g with _ | gr
    · dsimp only
      split <;> rfl
    · dsimp only
      rcases hd : node.data.updateGeometry gr with ⟨o, sizes, lg⟩ | ⟨w2, lg⟩ <;> dsimp only
      · split
        · rfl
        · dsimp only
          have hw2 : w ≠ w2 := by
            have hwn := Tree.holdsWin_false_node ht hn
            rw [Data.isMappedWin_eq_winOf, Data.winOf_of_updateGeometry_mapped hd] at hwn
            simp only [Option.some_beq_some] at hwn
            intro he
            rw [he] at hwn
            simp at hwn
          exact updWin_ne ws w2 w _ hw2

lemma foldl_uspStep_untouched (inner : Int) (g0 : Option Rect) (ids : List Nat)
    (acc : Tree × (Nat → WindowState) × List Ev × List (Option Rect)) (w : Nat)
    (ht : acc.1.holdsWin w = false) :
    ((ids.foldl (uspStep inner g0) acc)).2.1 w = acc.2.1 w := by
  induction ids generalizing acc with
  | nil => rfl
  | cons id rest ih =>
      have hpres : (uspStep inner g0 acc id).1.holdsWin w = false := by
        rw [← (uspStep_sameStructure inner g0 acc id).holdsWin w]
        exact ht
      rw [List.foldl_cons, ih _ hpres]
      exact uspStep_untouched inner g0 acc id w ht

lemma uspTree_untouched (gaps : Int × Int) (info : OutputInfo) (t : Tree)
    (ws : Nat → WindowState) (evs : List Ev) (w : Nat)
    (ht : t.holdsWin w = false) :
    (uspTree gaps info t ws evs).2.1 w = ws w := by
  rw [uspTree]
  rcases t.root with _ | root <;> dsimp only
  split
  · rfl
  · have h := foldl_uspStep_untouched gaps.2 (some (targetGeo gaps.1 info.usable))
      t.preOrderIds (t, ws, evs, []) w ht
    rcases hf : t.preOrderIds.foldl (uspStep gaps.2 (some (targetGeo gaps.1 info.usable)))
        (t, ws, evs, []) with ⟨t2, ws2, evs2, q2⟩
    rw [hf] at h
    exact h

lemma usp_fold_untouched (gaps : Int × Int) (entries : List (OutputInfo × Tree)) (w : Nat)
    (hts : ∀ e ∈ entries, e.2.holdsWin w = false) :
    ∀ acc : List (OutputInfo × Tree) × (Nat → WindowState) × List Ev,
      ((entries.foldl
          (fun acc e =>
            let r := uspTree gaps e.1 e.2 acc.2.1 acc.2.2
            (acc.1 ++ [(e.1, r.1)], r.2.1, r.2.2))
          acc).2.1 w) = acc.2.1 w := by
  induction entries with
  | nil => intro acc; rfl
  | cons e rest ih =>
      intro acc
      rw [List.foldl_cons, ih (fun x hx => hts x (List.mem_cons_of_mem _ hx))]
      exact uspTree_untouched gaps e.1 e.2 acc.2.1 acc.2.2 w
        (hts e (List.mem_cons_self _ _))

lemma usp_untouched (s : LayoutState) (w : Nat)
    (h : ∀ e ∈ s.trees, e.2.holdsWin w = false) :
    ((s.updateSpacePositions).windows) w = s.windows w :=
  usp_fold_untouched s.gaps s.trees w h ([], s.windows, s.events)

lemma refresh_untouched (s : LayoutState) (w : Nat)
    (hal : ∀ i, (s.windows i).alive = true)
    (h : ∀ e ∈ s.trees, e.2.holdsWin w = false) :
    ((s.refresh).windows) w = s.windows w := by
  rw [refresh_eq_usp_of_alive s hal]
  exact usp_untouched s w h

/-! ## Supporting lemmas: explicit computation of the removal surgery -/

lemma Tree.preOrderAux_nil (t : Tree) (fuel : Nat) : t.preOrderAux fuel [] = [] := by
  cases fuel <;> rfl

lemma Tree.preOrderAux_leaf {t : Tree} {nid : Nat} {d : Data} {p : Option Nat}
    (hleaf : t.getNode nid = some ⟨d, p, []⟩) :
    t.preOrderAux t.nodes.length [nid] = [nid] := by
  obtain ⟨f, hf⟩ : ∃ f, t.nodes.length = f + 1 :=
    ⟨t.nodes.length - 1, by have := Tree.getNode_isSome_lt hleaf; omega⟩
  rw [hf, Tree.preOrderAux, hleaf]
  dsimp only
  rw [List.nil_append]
  rw [t.preOrderAux_nil f]

lemma Tree.getNode_reconfig (t : Tree) (fi : List Nat) (r : Option Nat) (j : Nat) :
    ({ t with freeIds := fi, root := r }).getNode j = t.getNode j := rfl

lemma Tree.root_clearFold (ids : List Nat) (t : Tree) :
    ((ids.foldl (fun t i => t.setSlot i none) t)).root = t.root := by
  induction ids generalizing t with
  | nil => rfl
  | cons i rest ih => rw [List.foldl_cons, ih, Tree.root_setSlot]

lemma Tree.root_detach (t : Tree) (id : Nat) : (t.detachFromParent id).root = t.root := by
  rw [Tree.detachFromParent]
  rcases t.parentOf id with _ | p
  · rfl
  · rw [Tree.root_modifyNode]

lemma removeNodeDrop_leaf_getNode {t : Tree} {nid : Nat} {d : Data} {p : Option Nat}
    (hleaf : t.getNode nid = some ⟨d, p, []⟩) (j : Nat) :
    (t.removeNodeDrop nid).getNode j =
      if j = nid then none else (t.detachFromParent nid).getNode j := by
  rw [Tree.removeNodeDrop, hleaf]
  dsimp only
  rw [Tree.getNode_reconfig, t.preOrderAux_leaf hleaf]
  show ((t.detachFromParent nid).setSlot nid none).getNode j = _
  rw [Tree.getNode_setSlot_none]

lemma removeNodeDrop_leaf_root {t : Tree} {nid : Nat} {d : Data} {p : Option Nat}
    (hleaf : t.getNode nid = some ⟨d, p, []⟩) :
    (t.removeNodeDrop nid).root = if t.root = some nid then none else t.root := by
  rw [Tree.removeNodeDrop, hleaf]
  dsimp only
  rw [Tree.root_clearFold, Tree.root_detach]

lemma removeNodeOrphan_getNode {t : Tree} {id : Nat} {n : TNode}
    (hn : t.getNode id = some n) (j : Nat) :
    (t.removeNodeOrphan id).getNode j =
      if j = id then none
      else ((n.children.foldl
          (fun t c => t.modifyNode c (fun m => { m with parent := none }))
          (t.detachFromParent id))).getNode j := by
  rw [Tree.removeNodeOrphan, hn]
  dsimp only
  rw [Tree.getNode_reconfig, Tree.getNode_setSlot_none]

lemma Tree.root_modifyFold (ids : List Nat) (t : Tree) (f : TNode → TNode) :
    ((ids.foldl (fun t c => t.modifyNode c f) t)).root = t.root := by
  induction ids generalizing t with
  | nil => rfl
  | cons c rest ih => rw [List.foldl_cons, ih, Tree.root_modifyNode]

lemma removeNodeOrphan_root {t : Tree} {id : Nat} {n : TNode}
    (hn : t.getNode id = some n) :
    (t.removeNodeOrphan id).root = if t.root = some id then none else t.root := by
  rw [Tree.removeNodeOrphan, hn]
  dsimp only
  rw [Tree.root_setSlot, Tree.root_modifyFold, Tree.root_detach]

lemma findIdx?_insertIdx_self {a : Nat} :
    ∀ {l : List Nat} {n k : Nat}, n ≤ l.length → a ∉ l →
      List.findIdx? (fun x => x == a) (l.insertIdx n a) k = some (k + n) := by
  intro l
  induction l with
  | nil =>
      intro n k hn ha
      have hn0 : n = 0 := by simpa using hn
      subst hn0
      rw [List.insertIdx_zero, List.findIdx?_cons]
      simp
  | cons x xs ih =>
      intro n k hn ha
      cases n with
      | zero =>
          rw [List.insertIdx_zero, List.findIdx?_cons]
          simp
      | succ n =>
          rw [List.insertIdx_succ_cons, List.findIdx?_cons]
          have hxa : (x == a) = false := by
            simp only [beq_eq_false_iff_ne, ne_eq]
            intro he
            exact ha (he ▸ List.mem_cons_self x xs)
          rw [hxa]
          simp only [Bool.false_eq_true, if_false]
          rw [ih (Nat.le_of_succ_le_succ hn)
            (fun h => ha (List.mem_cons_of_mem _ h))]
          congr 1
          omega

lemma indexOf?_insertIdx_self {l : List Nat} {a : Nat} {n : Nat}
    (hn : n ≤ l.length) (ha : a ∉ l) :
    (l.insertIdx n a).indexOf? a = some n := by
  have := findIdx?_insertIdx_self (a := a) (l := l) (k := 0) hn ha
  simpa using this

/-! ## Supporting lemmas: geometry propagation hits its target, then skips -/

lemma Tree.getNode_setSlot_ne (t : Tree) {i j : Nat} (h : j ≠ i) (x : Option TNode) :
    (t.setSlot i x).getNode j = t.getNode j := by
  simp only [Tree.setSlot, Tree.getNode, List.getD_eq_getElem?_getD, List.getElem?_set]
  simp [h, Ne.symm h]

lemma uspStep_getNode_ne (inner : Int) (g0 : Option Rect)
    (acc : Tree × (Nat → WindowState) × List Ev × List (Option Rect)) (id j : Nat)
    (h : j ≠ id) :
    ((uspStep inner g0 acc id).1).getNode j = (acc.1).getNode j := by
  obtain ⟨t, ws, evs, queue⟩ := acc
  rw [uspStep.eq_def]
  dsimp only
  rcases queue with _ | ⟨g, rest⟩ <;> rcases hn : t.getNode id with _ | node <;> dsimp only
  · rcases g0 with _ | g0r <;> dsimp only
    · split <;> rfl
    · rcases node.data.updateGeometry g0r with ⟨o, sizes, lg⟩ | ⟨w, lg⟩ <;> dsimp only
      · exact Tree.getNode_setSlot_ne t h _
      · split <;> exact Tree.getNode_setSlot_ne t h _
  · rcases g with _ | gr <;> dsimp only
    · split <;> rfl
    · rcases node.data.updateGeometry gr with ⟨o, sizes, lg⟩ | ⟨w, lg⟩ <;> dsimp only
      · exact Tree.getNode_setSlot_ne t h _
      · split <;> exact Tree.getNode_setSlot_ne t h _

lemma foldl_uspStep_getNode_notin (inner : Int) (g0 : Option Rect) (j : Nat) :
    ∀ (ids : List Nat), j ∉ ids →
      ∀ acc : Tree × (Nat → WindowState) × List Ev × List (Option Rect),
      (((ids.foldl (uspStep inner g0) acc)).1).getNode j = (acc.1).getNode j := by
  intro ids
  induction ids with
  | nil => intro _ acc; rfl
  | cons id rest ih =>
      intro hj acc
      rw [List.foldl_cons, ih (fun h => hj (List.mem_cons_of_mem _ h)),
        uspStep_getNode_ne inner g0 acc id j
          (fun h => hj (h ▸ List.mem_cons_self id rest))]

lemma uspStep_first_tree (inner : Int) (g0 : Rect) (t : Tree)
    (ws : Nat → WindowState) (evs : List Ev) (r : Nat) (n : TNode)
    (hn : t.getNode r = some n) :
    (uspStep inner (some g0) (t, ws, evs, []) r).1 =
      t.setSlot r (some { n with data := n.data.updateGeometry g0 }) := by
  rw [uspStep.eq_def]
  dsimp only
  rw [hn]
  dsimp only
  rcases n.data.updateGeometry g0 with ⟨o, sizes, lg⟩ | ⟨w, lg⟩ <;> dsimp only
  split <;> rfl

lemma uspTree_skip (gaps : Int × Int) (info : OutputInfo) (t : Tree)
    (ws : Nat → WindowState) (evs : List Ev)
    (h : t.root = none ∨ ∃ r, t.root = some r ∧
      (t.getNode r).map (fun n => n.data.geometry)
        = some (targetGeo gaps.1 info.usable)) :
    uspTree gaps info t ws evs = (t, ws, evs) := by
  rw [uspTree.eq_def]
  rcases h with hn | ⟨r, hr, hg⟩
  · rw [hn]
  · rw [hr]
    dsimp only
    rw [if_pos hg]

lemma uspTree_sets_target (gaps : Int × Int) (info : OutputInfo) (t : Tree)
    (ws : Nat → WindowState) (evs : List Ev) (r : Nat) (n : TNode)
    (hr : t.root = some r) (hn : t.getNode r = some n)
    (hnod : t.preOrderIds.Nodup) :
    ((uspTree gaps info t ws evs).1).root = some r ∧
    (((uspTree gaps info t ws evs).1).getNode r).map (fun m => m.data.geometry)
      = some (targetGeo gaps.1 info.usable) := by
  by_cases hc : (t.getNode r).map (fun n => n.data.geometry)
      = some (targetGeo gaps.1 info.usable)
  · rw [uspTree_skip gaps info t ws evs (Or.inr ⟨r, hr, hc⟩)]
    exact ⟨hr, hc⟩
  · obtain ⟨k, hk⟩ : ∃ k, t.nodes.length = k + 1 :=
      ⟨t.nodes.length - 1, by have := Tree.getNode_isSome_lt hn; omega⟩
    have hpre : t.preOrderIds = r :: t.preOrderAux k (n.children ++ []) := by
      rw [Tree.preOrderIds, hr, hk]
      dsimp only
      conv_lhs => rw [Tree.preOrderAux.eq_def]
      dsimp only
      rw [hn]
    have hrnotin : r ∉ t.preOrderAux k (n.children ++ []) := by
      have := hnod
      rw [hpre, List.nodup_cons] at this
      exact this.1
    rw [uspTree.eq_def, hr]
    dsimp only
    rw [if_neg hc, hpre, List.foldl_cons]
    rcases hf : (t.preOrderAux k (n.children ++ [])).foldl
        (uspStep gaps.2 (some (targetGeo gaps.1 info.usable)))
        (uspStep gaps.2 (some (targetGeo gaps.1 info.usable)) (t, ws, evs, []) r)
      with ⟨tf, wsf, evsf, qf⟩
    dsimp only
    have hslot : tf.getNode r =
        some { n with data := n.data.updateGeometry (targetGeo gaps.1 info.usable) } := by
      have h1 := foldl_uspStep_getNode_notin gaps.2
        (some (targetGeo gaps.1 info.usable)) r
        (t.preOrderAux k (n.children ++ [])) hrnotin
        (uspStep gaps.2 (some (targetGeo gaps.1 info.usable)) (t, ws, evs, []) r)
      rw [hf] at h1
      dsimp only at h1
      rw [h1, uspStep_first_tree gaps.2 (targetGeo gaps.1 info.usable) t ws evs r n hn]
      rw [Tree.getNode_setSlot_lt t r r _ (Tree.getNode_isSome_lt hn), if_pos rfl]
    constructor
    · have hss := foldl_uspStep_sameStructure gaps.2
        (some (targetGeo gaps.1 info.usable))
        (r :: t.preOrderAux k (n.children ++ [])) (t, ws, evs, [])
      rw [List.foldl_cons, hf] at hss
      rw [← hss.root_eq]
      exact hr
    · rw [hslot]
      dsimp only [Option.map]
      rw [Data.geometry_updateGeometry]

lemma forall₂_mem_right {α β : Type} {R : α → β → Prop} :
    ∀ {l : List α} {l' : List β}, List.Forall₂ R l l' → ∀ y ∈ l', ∃ x ∈ l, R x y := by
  intro l l' h
  induction h with
  | nil => intro y hy; cases hy
  | cons hr ht ih =>
      intro y hy
      rcases List.mem_cons.1 hy with rfl | hy
      · exact ⟨_, List.mem_cons_self _ _, hr⟩
      · obtain ⟨x, hx, hxy⟩ := ih y hy
        exact ⟨x, List.mem_cons_of_mem _ hx, hxy⟩

lemma usp_fold_target (gaps : Int × Int) (entries : List (OutputInfo × Tree))
    (hwf : ∀ e ∈ entries, e.2.root = none ∨
      ∃ r n, e.2.root = some r ∧ e.2.getNode r = some n ∧ e.2.preOrderIds.Nodup) :
    ∀ acc : List (OutputInfo × Tree) × (Nat → WindowState) × List Ev,
      ∃ l, (entries.foldl
          (fun acc e =>
            let r := uspTree gaps e.1 e.2 acc.2.1 acc.2.2
            (acc.1 ++ [(e.1, r.1)], r.2.1, r.2.2))
          acc).1 = acc.1 ++ l ∧
        List.Forall₂ (fun e e' => e.1 = e'.1 ∧
          (e'.2.root = none ∨ ∃ r, e'.2.root = some r ∧
            (e'.2.getNode r).map (fun n => n.data.geometry)
              = some (targetGeo gaps.1 e'.1.usable))) entries l := by
  induction entries with
  | nil => exact fun acc => ⟨[], by simp, .nil⟩
  | cons e rest ih =>
      intro acc
      obtain ⟨l, h1, h2⟩ := ih (fun e' he' => hwf e' (List.mem_cons_of_mem _ he'))
        (acc.1 ++ [(e.1, (uspTree gaps e.1 e.2 acc.2.1 acc.2.2).1)],
         (uspTree gaps e.1 e.2 acc.2.1 acc.2.2).2.1,
         (uspTree gaps e.1 e.2 acc.2.1 acc.2.2).2.2)
      refine ⟨(e.1, (uspTree gaps e.1 e.2 acc.2.1 acc.2.2).1) :: l, ?_, ?_⟩
      · rw [List.foldl_cons]
        rw [h1, List.append_assoc]
        rfl
      · refine .cons ⟨rfl, ?_⟩ h2
        rcases hwf e (List.mem_cons_self _ _) with hnone | ⟨r, n, hroot, hn, hnod⟩
        · left
          rw [uspTree_skip gaps e.1 e.2 acc.2.1 acc.2.2 (Or.inl hnone)]
          exact hnone
        · right
          obtain ⟨hrt, hgeo⟩ :=
            uspTree_sets_target gaps e.1 e.2 acc.2.1 acc.2.2 r n hroot hn hnod
          exact ⟨r, hrt, hgeo⟩

lemma usp_fold_skip (gaps : Int × Int) (entries : List (OutputInfo × Tree))
    (hskip : ∀ e ∈ entries, e.2.root = none ∨ ∃ r, e.2.root = some r ∧
      (e.2.getNode r).map (fun n => n.data.geometry)
        = some (targetGeo gaps.1 e.1.usable)) :
    ∀ acc : List (OutputInfo × Tree) × (Nat → WindowState) × List Ev,
      entries.foldl
          (fun acc e =>
            let r := uspTree gaps e.1 e.2 acc.2.1 acc.2.2
            (acc.1 ++ [(e.1, r.1)], r.2.1, r.2.2))
          acc = (acc.1 ++ entries, acc.2.1, acc.2.2) := by
  induction entries with
  | nil => exact fun acc => by simp
  | cons e rest ih =>
      intro acc
      rw [List.foldl_cons,
        ih (fun e' he' => hskip e' (List.mem_cons_of_mem _ he'))]
      dsimp only
      rw [uspTree_skip gaps e.1 e.2 acc.2.1 acc.2.2 (hskip e (List.mem_cons_self _ _))]
      simp

lemma usp_noop (s : LayoutState)
    (hskip : ∀ e ∈ s.trees, e.2.root = none ∨ ∃ r, e.2.root = some r ∧
      (e.2.getNode r).map (fun n => n.data.geometry)
        = some (targetGeo s.gaps.1 e.1.usable)) :
    s.updateSpacePositions = s := by
  rw [LayoutState.updateSpacePositions]
  rw [usp_fold_skip s.gaps s.trees hskip ([], s.windows, s.events)]
  rfl

/-! ## Supporting lemmas: the empty-tree round trip -/

lemma forall₂_singleton_right {α β : Type} {R : α → β → Prop} {a : α} {l : List β}
    (h : List.Forall₂ R [a] l) : ∃ b, l = [b] ∧ R a b := by
  cases h with
  | cons hr ht => cases ht; exact ⟨_, rfl, hr⟩

lemma skelEq_none_right {x : Option TNode} (h : skelEq none x) : x = none := by
  cases x with
  | none => rfl
  | some n => exact h.elim

lemma lastActiveWindow_rootless {t : Tree} (h : t.root = none) (fs : List Nat) :
    lastActiveWindow t fs = none := by
  rw [lastActiveWindow]
  refine List.findSome?_eq_none_iff.2 fun x _ => ?_
  rw [h]
  rfl

lemma removeLeafFix_single_root_leaf (w : Nat) (g : Rect) :
    Tree.removeLeafFix ⟨[some ⟨.mapped w g, none, []⟩], [], some 0⟩ 0 =
      (⟨[none], [0], none⟩ : Tree) := rfl

lemma unmap_single_root_leaf (s : LayoutState) (w : Nat) (i1 : OutputInfo) (g : Rect)
    (htr : s.trees = [(i1, ⟨[some ⟨.mapped w g, none, []⟩], [], some 0⟩)])
    (htn : (s.windows w).tilingNodeId = some 0) :
    s.unmap w = (true, ({ s with
      trees := [(i1, (⟨[none], [0], none⟩ : Tree))],
      windows := updWin s.windows w
        (fun st => { st with tiled := false }) } : LayoutState).refresh) := by
  rw [LayoutState.unmap, LayoutState.unmapWindowInternal, htn]
  dsimp only
  rw [htr, List.findIdx?_cons]
  have hp : (Tree.isMappedAt ⟨[some ⟨.mapped w g, none, []⟩], [], some 0⟩ 0 w) = true := by
    simp [Tree.isMappedAt, Tree.getNode, Data.isMappedWin]
  simp only [hp, if_true, List.getD_cons_zero]
  rw [removeLeafFix_single_root_leaf]
  rfl

/-! ## Claims -/

/-- **C4** (confirmed): removing a leaf whose parent group has exactly 2
children (sizes) collapses the redundant group: the group's slot is freed
while its surviving child is kept alive (data and children intact) and
spliced under the grandparent at the group's former sibling index — or
promoted to the tree root when the group had no parent. -/
theorem C4_binary_group_collapse (t : Tree) (nid pid other w : Nat)
    (gw gg : Rect) (o : Orientation) (sizes : List Int) (gp : Option Nat)
    (odata : Data) (ochildren : List Nat) (dg : Data) (ggp : Option Nat)
    (gchildren : List Nat) (fpos : Nat)
    (hleaf : t.getNode nid = some ⟨.mapped w gw, some pid, []⟩)
    (hpar : t.getNode pid = some ⟨.group o sizes gg, gp, [nid, other]⟩ ∨
            t.getNode pid = some ⟨.group o sizes gg, gp, [other, nid]⟩)
    (hsz : sizes.length = 2)
    (hother : t.getNode other = some ⟨odata, some pid, ochildren⟩)
    (hne1 : nid ≠ pid) (hne2 : other ≠ nid) (hne3 : other ≠ pid)
    (hrootnid : t.root ≠ some nid)
    (hcase : match gp with
      | none => t.root = some pid
      | some g => g ≠ nid ∧ g ≠ pid ∧ g ≠ other ∧
          t.getNode g = some ⟨dg, ggp, gchildren⟩ ∧ other ∉ gchildren ∧
          gchildren.indexOf? pid = some fpos) :
    (t.removeLeafFix nid).getNode pid = none ∧
    (match gp with
     | none =>
        (t.removeLeafFix nid).root = some other ∧
        (t.removeLeafFix nid).getNode other = some ⟨odata, none, ochildren⟩
     | some g =>
        (t.removeLeafFix nid).getNode other = some ⟨odata, some g, ochildren⟩ ∧
        (t.removeLeafFix nid).childrenOf g = (gchildren.erase pid).insertIdx fpos other ∧
        ((t.removeLeafFix nid).childrenOf g).indexOf? other = some fpos) := by
  have hparent : t.parentOf nid = some pid := by rw [Tree.parentOf, hleaf]
  obtain ⟨children, hpid, herase⟩ :
      ∃ children, t.getNode pid = some ⟨.group o sizes gg, gp, children⟩ ∧
        children.erase nid = [other] := by
    rcases hpar with h | h
    · exact ⟨[nid, other], h, by rw [List.erase_cons_head]⟩
    · exact ⟨[other, nid], h,
        by rw [List.erase_cons_tail (by simpa using hne2), List.erase_cons_head]⟩
  have ht1g : ∀ j, (t.removeNodeDrop nid).getNode j =
      if j = nid then none
      else if j = pid then some ⟨.group o sizes gg, gp, children.erase nid⟩
      else t.getNode j := by
    intro j
    rw [removeNodeDrop_leaf_getNode hleaf]
    rcases eq_or_ne j nid with rfl | hjn
    · rw [if_pos rfl, if_pos rfl]
    · rw [if_neg hjn, if_neg hjn, Tree.detachFromParent, hparent,
        Tree.getNode_modifyNode]
      rcases eq_or_ne j pid with rfl | hjp
      · rw [if_pos rfl, if_pos rfl, hpid]
        rfl
      · rw [if_neg hjp, if_neg hjp]
  have ht1root : (t.removeNodeDrop nid).root = t.root := by
    rw [removeNodeDrop_leaf_root hleaf, if_neg hrootnid]
  have ht1pid : (t.removeNodeDrop nid).getNode pid =
      some ⟨.group o sizes gg, gp, children.erase nid⟩ := by
    rw [ht1g pid, if_neg (Ne.symm hne1), if_pos rfl]
  have ht1other : (t.removeNodeDrop nid).getNode other =
      some ⟨odata, some pid, ochildren⟩ := by
    rw [ht1g other, if_neg hne2, if_neg hne3]
    exact hother
  have hppid : t.parentOf pid = gp := by rw [Tree.parentOf, hpid]
  rw [Tree.removeLeafFix]
  dsimp only
  rw [hparent]
  dsimp only [Option.bind]
  rw [ht1pid]
  dsimp only [Option.map, Option.getD, Data.numSizes]
  rw [if_neg (show ¬ sizes.length > 2 by omega)]
  have hchld : (t.removeNodeDrop nid).childrenOf pid = [other] := by
    rw [Tree.childrenOf, ht1pid, herase]
  rw [hchld]
  dsimp only [List.headD]
  rw [hppid]
  rcases gp with _ | g
  · dsimp only at hcase ⊢
    have ht2g : ∀ j, ((t.removeNodeDrop nid).removeNodeOrphan pid).getNode j =
        if j = pid then none
        else if j = other then some ⟨odata, none, ochildren⟩
        else (t.removeNodeDrop nid).getNode j := by
      intro j
      rw [removeNodeOrphan_getNode ht1pid]
      rcases eq_or_ne j pid with rfl | hjp
      · rw [if_pos rfl, if_pos rfl]
      · rw [if_neg hjp, if_neg hjp]
        dsimp only
        rw [herase, List.foldl_cons, List.foldl_nil]
        have hdet : (t.removeNodeDrop nid).detachFromParent pid =
            t.removeNodeDrop nid := by
          rw [Tree.detachFromParent, Tree.parentOf, ht1pid]
        rw [hdet, Tree.getNode_modifyNode]
        rcases eq_or_ne j other with rfl | hjo
        · rw [if_pos rfl, if_pos rfl, ht1other]
          rfl
        · rw [if_neg hjo, if_neg hjo]
    have ht2root : ((t.removeNodeDrop nid).removeNodeOrphan pid).root = none := by
      rw [removeNodeOrphan_root ht1pid, ht1root, if_pos hcase]
    have ht2other : ((t.removeNodeDrop nid).removeNodeOrphan pid).getNode other =
        some ⟨odata, none, ochildren⟩ := by
      rw [ht2g other, if_neg hne3, if_pos rfl]
    rw [Tree.moveToRoot, ht2other]
    dsimp only
    have hdet2 : ((t.removeNodeDrop nid).removeNodeOrphan pid).detachFromParent other =
        (t.removeNodeDrop nid).removeNodeOrphan pid := by
      rw [Tree.detachFromParent, Tree.parentOf, ht2other]
    rw [hdet2]
    have hroot3 : ((((t.removeNodeDrop nid).removeNodeOrphan pid)).modifyNode other
        (fun n => { n with parent := none })).root = none := by
      rw [Tree.root_modifyNode, ht2root]
    rw [hroot3]
    dsimp only
    refine ⟨?_, Eq.refl _, ?_⟩
    · rw [Tree.getNode_reconfig, Tree.getNode_modifyNode, if_neg (Ne.symm hne3),
        ht2g pid, if_pos rfl]
    · rw [Tree.getNode_reconfig, Tree.getNode_modifyNode, if_pos rfl, ht2other]
      rfl
  · dsimp only at hcase ⊢
    obtain ⟨hgn, hgpne, hgo, hgnode, hgnotin, hfposeq⟩ := hcase
    have ht1gg : (t.removeNodeDrop nid).getNode g = some ⟨dg, ggp, gchildren⟩ := by
      rw [ht1g g, if_neg hgn, if_neg hgpne]
      exact hgnode
    have hchg : (t.removeNodeDrop nid).childrenOf g = gchildren := by
      rw [Tree.childrenOf, ht1gg]
    rw [hchg, hfposeq]
    dsimp only
    have ht2g : ∀ j, ((t.removeNodeDrop nid).removeNodeOrphan pid).getNode j =
        if j = pid then none
        else if j = other then some ⟨odata, none, ochildren⟩
        else if j = g then some ⟨dg, ggp, gchildren.erase pid⟩
        else (t.removeNodeDrop nid).getNode j := by
      intro j
      rw [removeNodeOrphan_getNode ht1pid]
      rcases eq_or_ne j pid with rfl | hjp
      · rw [if_pos rfl, if_pos rfl]
      · rw [if_neg hjp, if_neg hjp]
        dsimp only
        rw [herase, List.foldl_cons, List.foldl_nil]
        have hdet : (t.removeNodeDrop nid).detachFromParent pid =
            (t.removeNodeDrop nid).modifyNode g
              (fun n => { n with children := n.children.erase pid }) := by
          rw [Tree.detachFromParent, Tree.parentOf, ht1pid]
        rw [hdet, Tree.getNode_modifyNode]
        rcases eq_or_ne j other with rfl | hjo
        · rw [if_pos rfl, if_pos rfl, Tree.getNode_modifyNode,
            if_neg (Ne.symm hgo), ht1other]
          rfl
        · rw [if_neg hjo, if_neg hjo, Tree.getNode_modifyNode]
          rcases eq_or_ne j g with rfl | hjg
          · rw [if_pos rfl, if_pos rfl, ht1gg]
            rfl
          · rw [if_neg hjg, if_neg hjg]
    have ht2other : ((t.removeNodeDrop nid).removeNodeOrphan pid).getNode other =
        some ⟨odata, none, ochildren⟩ := by
      rw [ht2g other, if_neg hne3, if_pos rfl]
    have ht2gg : ((t.removeNodeDrop nid).removeNodeOrphan pid).getNode g =
        some ⟨dg, ggp, gchildren.erase pid⟩ := by
      rw [ht2g g, if_neg hgpne, if_neg hgo, if_pos rfl]
    rw [Tree.moveToParent, ht2other]
    dsimp only
    have hdet2 : ((t.removeNodeDrop nid).removeNodeOrphan pid).detachFromParent other =
        (t.removeNodeDrop nid).removeNodeOrphan pid := by
      rw [Tree.detachFromParent, Tree.parentOf, ht2other]
    rw [hdet2]
    have ht3other : ((((t.removeNodeDrop nid).removeNodeOrphan pid).modifyNode other
          (fun n => { n with parent := some g })).modifyNode g
          (fun n => { n with children := n.children ++ [other] })).getNode other =
        some ⟨odata, some g, ochildren⟩ := by
      rw [Tree.getNode_modifyNode, if_neg (Ne.symm hgo), Tree.getNode_modifyNode,
        if_pos rfl, ht2other]
      rfl
    have ht3g : ((((t.removeNodeDrop nid).removeNodeOrphan pid).modifyNode other
          (fun n => { n with parent := some g })).modifyNode g
          (fun n => { n with children := n.children ++ [other] })).getNode g =
        some ⟨dg, ggp, (gchildren.erase pid) ++ [other]⟩ := by
      rw [Tree.getNode_modifyNode, if_pos rfl, Tree.getNode_modifyNode,
        if_neg hgo, ht2gg]
      rfl
    have ht3pid : ((((t.removeNodeDrop nid).removeNodeOrphan pid).modifyNode other
          (fun n => { n with parent := some g })).modifyNode g
          (fun n => { n with children := n.children ++ [other] })).getNode pid =
        none := by
      rw [Tree.getNode_modifyNode, if_neg (Ne.symm hgpne), Tree.getNode_modifyNode,
        if_neg (Ne.symm hne3), ht2g pid, if_pos rfl]
    have hp3 : ((((t.removeNodeDrop nid).removeNodeOrphan pid).modifyNode other
          (fun n => { n with parent := some g })).modifyNode g
          (fun n => { n with children := n.children ++ [other] })).parentOf other =
        some g := by
      rw [Tree.parentOf, ht3other]
    rw [Tree.makeNthSibling, hp3]
    have hnotin2 : other ∉ gchildren.erase pid := fun h =>
      hgnotin (List.mem_of_mem_erase h)
    have herase2 : ((gchildren.erase pid) ++ [other]).erase other =
        gchildren.erase pid := by
      rw [List.erase_append_right _ hnotin2, List.erase_cons_head, List.append_nil]
    have hfinalg : (((((t.removeNodeDrop nid).removeNodeOrphan pid).modifyNode other
          (fun n => { n with parent := some g })).modifyNode g
          (fun n => { n with children := n.children ++ [other] })).modifyNode g
          (fun m => { m with
            children := (m.children.erase other).insertIdx fpos other })).getNode g =
        some ⟨dg, ggp, (gchildren.erase pid).insertIdx fpos other⟩ := by
      rw [Tree.getNode_modifyNode, if_pos rfl, ht3g]
      show some (⟨dg, ggp,
        (((gchildren.erase pid) ++ [other]).erase other).insertIdx fpos other⟩ : TNode) = _
      rw [herase2]
    have hfb : ∃ hlen : fpos < gchildren.length, (gchildren[fpos] == pid) = true := by
      obtain ⟨-, hlt, hbeq⟩ := findIdx?_some_pred
        (show List.findIdx? (fun x => x == pid) gchildren 0 = some fpos from hfposeq)
      simp only [Nat.sub_zero] at hlt hbeq
      exact ⟨hlt, hbeq⟩
    obtain ⟨hlen, hbeq⟩ := hfb
    have hmem : pid ∈ gchildren := by
      have := List.getElem_mem hlen
      rwa [eq_of_beq hbeq] at this
    have hlenbound : fpos ≤ (gchildren.erase pid).length := by
      rw [List.length_erase_of_mem hmem]
      omega
    refine ⟨?_, ?_, ?_, ?_⟩
    · rw [Tree.getNode_modifyNode, if_neg (Ne.symm hgpne), ht3pid]
    · rw [Tree.getNode_modifyNode, if_neg (Ne.symm hgo), ht3other]
    · rw [Tree.childrenOf, hfinalg]
    · rw [Tree.childrenOf, hfinalg]
      exact indexOf?_insertIdx_self hlenbound hnotin2

/-- Witness for C4: in `collapseTree`, removing leaf 2 deletes its binary
parent group 1 and splices the surviving leaf 3 under grandparent 0 at
sibling index 0 — exactly where group 1 used to sit. -/
theorem C4_witness :
    (collapseTree.removeLeafFix 2).getNode 1 = none ∧
    (collapseTree.removeLeafFix 2).getNode 3 =
      some ⟨.mapped 8 ⟨0, 30, 50, 70⟩, some 0, []⟩ ∧
    (collapseTree.removeLeafFix 2).childrenOf 0 = [3, 4] ∧
    ((collapseTree.removeLeafFix 2).childrenOf 0).indexOf? 3 = some 0 := by
  have h := C4_binary_group_collapse collapseTree 2 1 3 9 ⟨0, 0, 50, 30⟩
      ⟨0, 0, 50, 100⟩ .vertical [30, 70] (some 0) (.mapped 8 ⟨0, 30, 50, 70⟩)
      [] (.group .horizontal [50, 50] ⟨0, 0, 100, 100⟩) none [1, 4] 0
      (by decide) (Or.inl (by decide)) (by decide) (by decide)
      (by decide) (by decide) (by decide) (by decide) (by decide)
  exact ⟨h.1, h.2.1, h.2.2.1.trans (by decide), h.2.2.2⟩

/-- **C1** (code_bug): the claimed invariant `sum(sizes) ==
group_geometry.length_along(orientation)` is broken by the public pipeline
itself: on an output of usable width 101, `map(1); map(2)` leaves the root
group with sizes `[51, 51]` (the rescale of `[50, 50]` from width 100 to
width 101 rounds both halves up) while the group geometry is 101 wide —
`Data::update_geometry` corrects only a rounding deficit (`sum <
new_length`), never a surplus, so the invariant the code elsewhere
maintains (`Data::remove_window` fixes `overflow != 0` of either sign)
fails here. -/
theorem C1_group_sum_invariant_fails_at_width_101 :
    (oddAfterTwoMaps.trees.all fun e => e.2.groupInvariantHolds) = false ∧
    ((oddAfterTwoMaps.trees.getD 0 (⟨0, ⟨0, 0⟩, ⟨0, 0, 0, 0⟩, ⟨0, 0, 0, 0⟩⟩,
        Tree.empty)).2.getNode 1) =
      some ⟨.group .vertical [51, 51] ⟨0, 0, 101, 50⟩, none, [0, 2]⟩ ∧
    ([51, 51] : List Int).sum ≠ Rect.lengthAlong .vertical ⟨0, 0, 101, 50⟩ := by
  refine ⟨by decide, by decide, by decide⟩

/-- **C3** (code_bug): `Data::update_geometry` rescales each size by
`new_extent/old_extent` with rounding, but pushes only a rounding
*deficit* onto the last sibling (`if sum < new_length`); a rounding
*surplus* is left uncorrected, contradicting the claim that drift "in
either direction" is absorbed.  Witnessed by the group `[50, 50]` of width
100 resized to width 101: both halves round `50.5` up, leaving `[51, 51]`
with sum 102 ≠ 101. -/
theorem C3_updateGeometry_surplus_not_corrected :
    (Data.group .vertical [50, 50] ⟨0, 0, 100, 100⟩).updateGeometry ⟨0, 0, 101, 50⟩ =
      .group .vertical [51, 51] ⟨0, 0, 101, 50⟩ ∧
    ([51, 51] : List Int).sum ≠ Rect.lengthAlong .vertical ⟨0, 0, 101, 50⟩ := by
  refine ⟨by decide, by decide⟩

/-- **C6** (code_bug): for direction `Up` the reference point computed by
`next_focus` is `loc + (w, 0)` — the top-*right corner* of the originating
leaf's geometry (`point.x += geo.size.w`, a missing `/ 2`) — not the
midpoint of the top edge as for the other three directions; with the leaf
at `(0, 0)` sized `100 × 50` and two candidate children, the corner point
selects child 2 where the edge midpoint would select child 1. -/
theorem C6_up_reference_point_is_corner_not_midpoint :
    nextFocusRefPoint .up ⟨0, 0, 100, 50⟩ = ⟨100, 0⟩ ∧
    specEdgeMidpoint .up ⟨0, 0, 100, 50⟩ = ⟨50, 0⟩ ∧
    nextFocusRefPoint .up ⟨0, 0, 100, 50⟩ ≠ specEdgeMidpoint .up ⟨0, 0, 100, 50⟩ ∧
    descendChoice .up (nextFocusRefPoint .up ⟨0, 0, 100, 50⟩)
        [(1, ⟨0, -50, 60, 50⟩), (2, ⟨60, -50, 40, 50⟩)] = some 2 ∧
    descendChoice .up (specEdgeMidpoint .up ⟨0, 0, 100, 50⟩)
        [(1, ⟨0, -50, 60, 50⟩), (2, ⟨60, -50, 40, 50⟩)] = some 1 := by
  refine ⟨by decide, by decide, by decide, by decide, by decide⟩

lemma Tree.isMappedAt_lt {t : Tree} {id w : Nat} (h : t.isMappedAt id w = true) :
    id < t.nodes.length := by
  rw [Tree.isMappedAt] at h
  rcases hn : t.getNode id with _ | n
  · rw [hn] at h; cases h
  · exact Tree.getNode_isSome_lt hn

/-- **C2** (corrected), counterexample to the claim as stated: on
`singleWinRegistry`, `unmap(7)` succeeds (returns `true`), yet the
window's back-reference slot `tiling_node_id` still holds the removed node
id `0` afterwards — `unmap`/`unmap_window_internal` never write `None`
into it, so the "back-reference is cleared" part of the claim is false. -/
theorem C2_counterexample_backref_not_cleared :
    (singleWinRegistry.unmap 7).1 = true ∧
    ((singleWinRegistry.unmap 7).2.windows 7).tilingNodeId = some 0 ∧
    ((singleWinRegistry.unmap 7).2.windows 7).tilingNodeId ≠ none := by
  refine ⟨by decide, by decide, by decide⟩

/-- **C2** (corrected), the amended contract: under the registry invariant
that `w` has at most one leaf (and live windows), `unmap w` returns `true`
exactly when the stored leaf identifier resolves to a leaf holding this
window in some tree; on success the tiled flag is unset — but the
back-reference slot is *retained*, not cleared (it still holds the
now-stale identifier). -/
theorem C2_unmap_found_iff_and_flag_unset (s : LayoutState) (w : Nat)
    (hal : ∀ i, (s.windows i).alive = true)
    (huniq : ∀ i j id id2 : Nat, ∀ hi : i < s.trees.length, ∀ hj : j < s.trees.length,
      (s.trees[i]).2.isMappedAt id w = true →
        (s.trees[j]).2.isMappedAt id2 w = true → i = j ∧ id = id2) :
    ((s.unmap w).1 = true ↔ FoundTiled s w) ∧
    ((s.unmap w).1 = true → ((s.unmap w).2.windows w).tiled = false) ∧
    ((s.unmap w).2.windows w).tilingNodeId = (s.windows w).tilingNodeId := by
  rcases hn : (s.windows w).tilingNodeId with _ | nid
  · have hint : s.unmapWindowInternal w = (false, s) := by
      rw [LayoutState.unmapWindowInternal, hn]
    rw [LayoutState.unmap, hint]
    refine ⟨?_, by simp, by dsimp only; exact hn⟩
    constructor
    · intro hh; simp at hh
    · intro hft
      rw [FoundTiled, foundTiledB, hn] at hft
      cases hft
  · rcases hf : List.findIdx? (fun e => e.2.isMappedAt nid w) s.trees with _ | i
    · have hint : s.unmapWindowInternal w = (false, s) := by
        rw [LayoutState.unmapWindowInternal, hn]
        dsimp only
        rw [hf]
      rw [LayoutState.unmap, hint]
      refine ⟨?_, by simp, by dsimp only; exact hn⟩
      constructor
      · intro hh; simp at hh
      · intro hft
        rw [FoundTiled, foundTiledB, hn] at hft
        obtain ⟨e, he, hpe⟩ := List.any_eq_true.1 hft
        have := findIdx?_eq_none_forall hf e he
        rw [hpe] at this
        cases this
    · obtain ⟨-, hP⟩ := findIdx?_some_pred hf
      simp only [Nat.sub_zero] at hP
      obtain ⟨hlt, hp⟩ := hP
      have hp2 : (s.trees[i]).2.isMappedAt nid w = true := hp
      rcases hent : s.trees[i] with ⟨infoI, tI⟩
      have hgd : s.trees.getD i
          (⟨0, ⟨0, 0⟩, ⟨0, 0, 0, 0⟩, ⟨0, 0, 0, 0⟩⟩, Tree.empty) = (infoI, tI) := by
        rw [List.getD_eq_getElem?_getD, List.getElem?_eq_getElem hlt, hent]
        rfl
      have hiw : tI.isMappedAt nid w = true := by
        rw [hent] at hp2
        exact hp2
      have hint : s.unmapWindowInternal w =
          (true, { s with trees := s.trees.set i (infoI, tI.removeLeafFix nid) }) := by
        rw [LayoutState.unmapWindowInternal, hn]
        dsimp only
        rw [hf]
        dsimp only
        rw [hgd]
      have hothers : ∀ j, j ≠ nid → tI.isMappedAt j w = false := by
        intro j hjne
        by_contra hc
        have hjt : tI.isMappedAt j w = true := by
          cases hcc : tI.isMappedAt j w
          · exact absurd hcc hc
          · rfl
        exact hjne
          (huniq i i j nid hlt hlt (by rw [hent]; exact hjt) (by rw [hent]; exact hiw)).2
      have hal2 : ∀ v,
          ((updWin s.windows w (fun st => { st with tiled := false })) v).alive = true := by
        intro v
        rw [updWin]
        split
        · exact hal v
        · exact hal v
      have hclear : ∀ e ∈ s.trees.set i (infoI, tI.removeLeafFix nid),
          e.2.holdsWin w = false := by
        intro e he
        obtain ⟨k, hk, hke⟩ := List.mem_iff_getElem.1 he
        have hk2 : k < s.trees.length := by
          rw [List.length_set] at hk
          exact hk
        rcases eq_or_ne k i with rfl | hkne
        · rw [← hke, List.getElem_set_self hk]
          exact removeLeafFix_holdsWin_false hiw hothers
        · rw [← hke, List.getElem_set_ne (Ne.symm hkne)]
          by_contra hc
          have hct : (s.trees[k]).2.holdsWin w = true := by
            cases hcc : (s.trees[k]).2.holdsWin w
            · exact absurd hcc hc
            · rfl
          obtain ⟨j, hj⟩ := (Tree.holdsWin_true_iff _ _).1 hct
          exact hkne
            (huniq k i j nid hk2 hlt hj (by rw [hent]; exact hiw)).1
      have hrw := refresh_untouched
        { s with trees := s.trees.set i (infoI, tI.removeLeafFix nid),
                 windows := updWin s.windows w (fun st => { st with tiled := false }) }
        w hal2 hclear
      rw [LayoutState.unmap, hint]
      dsimp only
      refine ⟨?_, ?_, ?_⟩
      · constructor
        · intro _
          rw [FoundTiled, foundTiledB, hn]
          exact List.any_eq_true.2 ⟨s.trees[i], List.getElem_mem hlt, hp2⟩
        · intro _
          rfl
      · intro _
        rw [hrw]
        show ((updWin s.windows w (fun st => { st with tiled := false })) w).tiled = false
        rw [updWin]
        simp
      · rw [hrw]
        have hupd : ((updWin s.windows w (fun st => { st with tiled := false })) w).tilingNodeId =
            (s.windows w).tilingNodeId := by
          rw [updWin]
          simp
        exact hupd.trans hn

/-- **C10** (confirmed): whenever the window's stored node identifier is
absent, or resolves in no registry tree to a leaf whose stored window
handle equals this exact window, `unmap` returns `false` and the whole
state — in particular every tree — is left completely unchanged; a stale
or reused node identifier can therefore never cause removal of a
different window's node. -/
theorem C10_failed_unmap_is_noop (s : LayoutState) (w : Nat)
    (h : ¬ FoundTiled s w) : s.unmap w = (false, s) := by
  have hint : s.unmapWindowInternal w = (false, s) := by
    rw [LayoutState.unmapWindowInternal]
    rcases hn : (s.windows w).tilingNodeId with _ | nid
    · rfl
    · dsimp only
      rcases hf : List.findIdx? (fun e => e.2.isMappedAt nid w) s.trees with _ | i
      · rw [hf]
      · exfalso
        apply h
        rw [FoundTiled, foundTiledB, hn]
        obtain ⟨_, hlt, hp⟩ := findIdx?_some_pred hf
        exact List.any_eq_true.2 ⟨s.trees[i - 0], List.getElem_mem hlt, hp⟩
  rw [LayoutState.unmap, hint]

/-- Witness for C10: window 5's stored identifier 3 resolves to a leaf of
window 9 in `staleRegistry`, so the removal is rejected and the registry
survives unchanged. -/
theorem C10_witness :
    ¬ FoundTiled staleRegistry 5 ∧ staleRegistry.unmap 5 = (false, staleRegistry) :=
  ⟨by decide, C10_failed_unmap_is_noop staleRegistry 5 (by decide)⟩

/-- Witness for the amended C2: on `singleWinRegistry`, `unmap(7)` is
found-tiled and succeeds, the tiled flag ends up unset, and the
back-reference still holds `some 0`. -/
theorem C2_witness :
    (((singleWinRegistry.unmap 7).1 = true ↔ FoundTiled singleWinRegistry 7) ∧
      ((singleWinRegistry.unmap 7).1 = true →
        ((singleWinRegistry.unmap 7).2.windows 7).tiled = false) ∧
      ((singleWinRegistry.unmap 7).2.windows 7).tilingNodeId =
        (singleWinRegistry.windows 7).tilingNodeId) ∧
    FoundTiled singleWinRegistry 7 := by
  refine ⟨C2_unmap_found_iff_and_flag_unset singleWinRegistry 7 ?_ ?_, by decide⟩
  · intro i
    by_cases h : i = 7 <;> simp [singleWinRegistry, h]
  · intro i j id id2 hi hj h1 h2
    have hlen : singleWinRegistry.trees.length = 1 := rfl
    rw [hlen] at hi hj
    have hi0 : i = 0 := by omega
    have hj0 : j = 0 := by omega
    subst hi0
    subst hj0
    have hd1 : id < 1 := Tree.isMappedAt_lt h1
    have hd2 : id2 < 1 := Tree.isMappedAt_lt h2
    exact ⟨rfl, by omega⟩

/-- **C5** (confirmed): `Data::add_window(idx)` on a group of extent `L`
with `n` sizes computes the equal share `L/(n+1)` by integer division,
rescales every existing size by `(L - equal_share)/L` with rounding,
inserts `L - sum(rescaled)` at `idx`, and the resulting `n+1` sizes sum to
exactly `L` with no further normalization. -/
theorem C5_addWindow_inserts_exact_remainder (o : Orientation) (sizes : List Int)
    (geo : Rect) (idx : Nat) (h : idx ≤ sizes.length) :
    (Data.group o sizes geo).addWindow idx =
      .group o
        ((sizes.map fun s =>
            roundRat (s * (geo.lengthAlong o - Int.tdiv (geo.lengthAlong o) (sizes.length + 1)))
              (geo.lengthAlong o)).insertIdx idx
          (geo.lengthAlong o -
            (sizes.map fun s =>
              roundRat (s * (geo.lengthAlong o - Int.tdiv (geo.lengthAlong o) (sizes.length + 1)))
                (geo.lengthAlong o)).sum))
        geo ∧
    ((Data.group o sizes geo).addWindow idx).sizesOf.sum = geo.lengthAlong o ∧
    ((Data.group o sizes geo).addWindow idx).sizesOf.length = sizes.length + 1 := by
  have hlen : (sizes.map fun s =>
      roundRat (s * (geo.lengthAlong o - Int.tdiv (geo.lengthAlong o) (sizes.length + 1)))
        (geo.lengthAlong o)).length = sizes.length := List.length_map _ _
  have h' : idx ≤ (sizes.map fun s =>
      roundRat (s * (geo.lengthAlong o - Int.tdiv (geo.lengthAlong o) (sizes.length + 1)))
        (geo.lengthAlong o)).length := le_of_le_of_eq h hlen.symm
  refine ⟨rfl, ?_, ?_⟩
  · show ((sizes.map _).insertIdx idx _).sum = _
    rw [List.Perm.sum_eq (List.perm_insertIdx _ _ h')]
    simp [List.sum_cons]
  · show ((sizes.map _).insertIdx idx _).length = _
    rw [List.length_insertIdx _ _ h', hlen]

/-- Witness for C5: inserting into a two-child group of width 1000 at
index 1 yields sizes `[334, 332, 334]`, summing to exactly 1000. -/
theorem C5_witness :
    (1 : Nat) ≤ ([500, 500] : List Int).length ∧
    (Data.group .vertical [500, 500] ⟨0, 0, 1000, 600⟩).addWindow 1 =
      .group .vertical [334, 332, 334] ⟨0, 0, 1000, 600⟩ ∧
    ((Data.group .vertical [500, 500] ⟨0, 0, 1000, 600⟩).addWindow 1).sizesOf.sum = 1000 :=
  ⟨by decide,
   by have := C5_addWindow_inserts_exact_remainder .vertical [500, 500]
        ⟨0, 0, 1000, 600⟩ 1 (by decide)
      exact by decide,
   (C5_addWindow_inserts_exact_remainder .vertical [500, 500]
      ⟨0, 0, 1000, 600⟩ 1 (by decide)).2.1⟩

/-- **C8** (confirmed): on a registry with one output whose tree is empty,
`map(A)` inserts `A` as the sole root leaf and the following `unmap(A)`
succeeds and removes it — a root leaf has no parent, so `remove_node`
clears the root — leaving the output's tree empty again: no root, no
allocated slot, no mapped window. -/
theorem C8_empty_tree_map_unmap_roundtrip
    (w : Nat) (info : OutputInfo) (gaps : Int × Int)
    (ws : Nat → WindowState) (evs : List Ev) (fs : List Nat)
    (hal : ∀ v, (ws v).alive = true) :
    (((⟨gaps, [(info, Tree.empty)], ws, evs⟩ : LayoutState).map w info.out fs).unmap
        w).1 = true ∧
    ∀ e ∈ ((((⟨gaps, [(info, Tree.empty)], ws, evs⟩ : LayoutState).map w
        info.out fs).unmap w).2).trees,
      e.2.root = none ∧ (∀ x ∈ e.2.nodes, x = none) ∧ e.2.mappedWindows = [] := by
  have htidx : (⟨gaps, [(info, Tree.empty)], ws, evs⟩ : LayoutState).treeIdx info.out
      = some 0 := by
    rw [LayoutState.treeIdx, List.findIdx?_cons]
    simp
  set sA : LayoutState :=
    ⟨gaps, [(info, ⟨[some ⟨.mapped w ⟨0, 0, 100, 100⟩, none, []⟩], [], some 0⟩)],
      updWin ws w (fun st => { st with tilingNodeId := some 0 }), evs⟩ with hsA
  have hmi : (⟨gaps, [(info, Tree.empty)], ws, evs⟩ : LayoutState).mapInternal w
      info.out fs = sA := by
    rw [LayoutState.mapInternal, htidx]
    simp only [List.getD_cons_zero]
    rw [lastActiveWindow_rootless (t := Tree.empty) rfl]
    rfl
  have hal1 : ∀ v, ((sA.windows) v).alive = true := by
    intro v
    show ((updWin ws w _) v).alive = true
    rw [updWin]
    split
    · exact hal v
    · exact hal v
  have hmap : (⟨gaps, [(info, Tree.empty)], ws, evs⟩ : LayoutState).map w info.out fs =
      sA.updateSpacePositions := by
    rw [LayoutState.map, hmi, refresh_eq_usp_of_alive _ hal1]
  obtain ⟨e1, hT1, hr1⟩ := forall₂_singleton_right (usp_trees_rel sA)
  obtain ⟨i1, t2⟩ := e1
  obtain ⟨nodes2, free2, root2⟩ := t2
  obtain ⟨hi1, hroot2, hfree2, hfa2⟩ :
      info = i1 ∧ (some 0 : Option Nat) = root2 ∧ ([] : List Nat) = free2 ∧
        List.Forall₂ skelEq [some ⟨.mapped w ⟨0, 0, 100, 100⟩, none, []⟩] nodes2 :=
    ⟨hr1.1, hr1.2.1, hr1.2.2.1, hr1.2.2.2⟩
  obtain ⟨b2, hb2, hsk2⟩ := forall₂_singleton_right hfa2
  obtain _ | m := b2
  · exact hsk2.elim
  obtain ⟨md, mp, mc⟩ := m
  obtain ⟨hskp, hskc, hskw, hskg⟩ := hsk2
  obtain ⟨o, sz, gg⟩ | ⟨v, g2⟩ := md
  · exact Bool.noConfusion hskg
  obtain rfl : w = v := Option.some.inj hskw
  subst hi1 hroot2 hfree2 hb2
  dsimp only at hskp hskc
  subst hskp hskc
  have hwtn : ((sA.updateSpacePositions).windows w).tilingNodeId = some 0 := by
    rw [(usp_windows_fields sA w).1]
    show ((updWin ws w _) w).tilingNodeId = some 0
    rw [updWin]
    simp
  have hunm := unmap_single_root_leaf sA.updateSpacePositions w info g2 (by rw [hT1]) hwtn
  have hal2 : ∀ v, (((sA.updateSpacePositions).windows) v).alive = true := fun v =>
    ((usp_windows_fields sA v).2.1).trans (hal1 v)
  have hal3 : ∀ v, (((({ sA.updateSpacePositions with
      trees := [(info, (⟨[none], [0], none⟩ : Tree))],
      windows := updWin (sA.updateSpacePositions).windows w
        (fun st => { st with tiled := false }) } : LayoutState)).windows) v).alive
      = true := by
    intro v
    show ((updWin (sA.updateSpacePositions).windows w _) v).alive = true
    rw [updWin]
    split
    · exact hal2 v
    · exact hal2 v
  rw [hmap, hunm]
  rw [refresh_eq_usp_of_alive _ hal3]
  obtain ⟨e2, hT2, hr2⟩ := forall₂_singleton_right (usp_trees_rel
    ({ sA.updateSpacePositions with
      trees := [(info, (⟨[none], [0], none⟩ : Tree))],
      windows := updWin (sA.updateSpacePositions).windows w
        (fun st => { st with tiled := false }) } : LayoutState))
  have hroot3 : (none : Option Nat) = e2.2.root := hr2.2.1
  obtain ⟨b3, hb3, hsk3⟩ := forall₂_singleton_right hr2.2.2.2
  obtain rfl : b3 = none := skelEq_none_right hsk3
  refine ⟨rfl, ?_⟩
  intro e he
  rw [show ((true, ({ sA.updateSpacePositions with
      trees := [(info, (⟨[none], [0], none⟩ : Tree))],
      windows := updWin (sA.updateSpacePositions).windows w
        (fun st => { st with tiled := false }) } : LayoutState).updateSpacePositions)).2
    = ({ sA.updateSpacePositions with
      trees := [(info, (⟨[none], [0], none⟩ : Tree))],
      windows := updWin (sA.updateSpacePositions).windows w
        (fun st => { st with tiled := false }) } : LayoutState).updateSpacePositions
    from rfl, hT2, List.mem_singleton] at he
  subst he
  refine ⟨hroot3.symm, ?_, ?_⟩
  · intro x hx
    rw [hb3, List.mem_singleton] at hx
    exact hx
  · rw [Tree.mappedWindows, Tree.preOrderIds, ← hroot3]
    rfl

/-- Witness for C8: a concrete registry with one output and an empty tree;
mapping window 3 and then unmapping it returns `true` and leaves the
output's tree empty — no root, no allocated slot, no mapped window. -/
theorem C8_witness :
    (((⟨(0, 4), [(⟨0, ⟨0, 0⟩, ⟨0, 0, 800, 600⟩, ⟨0, 0, 800, 600⟩⟩, Tree.empty)],
        fun _ => ⟨true, false, false, none⟩, []⟩ : LayoutState).map 3 0 []).unmap
        3).1 = true ∧
    ∀ e ∈ ((((⟨(0, 4), [(⟨0, ⟨0, 0⟩, ⟨0, 0, 800, 600⟩, ⟨0, 0, 800, 600⟩⟩, Tree.empty)],
        fun _ => ⟨true, false, false, none⟩, []⟩ : LayoutState).map 3 0 []).unmap
        3).2).trees,
      e.2.root = none ∧ (∀ x ∈ e.2.nodes, x = none) ∧ e.2.mappedWindows = [] :=
  C8_empty_tree_map_unmap_roundtrip 3 ⟨0, ⟨0, 0⟩, ⟨0, 0, 800, 600⟩, ⟨0, 0, 800, 600⟩⟩
    (0, 4) (fun _ => ⟨true, false, false, none⟩) [] [] (fun _ => rfl)

/-- **C9** (confirmed): geometry propagation is idempotent — after one
`refresh()`, every tree's root geometry equals the target (usable area
shrunk by the outer gap on each side), so the second `refresh()` takes the
skip branch for every output and returns the state unchanged: no stored
geometry changes and no further `set_size`/`configure` call is issued. -/
theorem C9_refresh_idempotent (s : LayoutState)
    (hal : ∀ v, (s.windows v).alive = true)
    (hwf : ∀ e ∈ s.trees, e.2.root = none ∨
      ∃ r n, e.2.root = some r ∧ e.2.getNode r = some n ∧ e.2.preOrderIds.Nodup) :
    (s.refresh).refresh = s.refresh := by
  rw [refresh_eq_usp_of_alive s hal]
  have hal2 : ∀ v, ((s.updateSpacePositions).windows v).alive = true := fun v =>
    ((usp_windows_fields s v).2.1).trans (hal v)
  rw [refresh_eq_usp_of_alive _ hal2]
  apply usp_noop
  intro e he
  obtain ⟨l, h1, h2⟩ := usp_fold_target s.gaps s.trees hwf ([], s.windows, s.events)
  have htrees : (s.updateSpacePositions).trees = l := by
    show ((s.trees.foldl _
      (([], s.windows, s.events) :
        List (OutputInfo × Tree) × (Nat → WindowState) × List Ev))).1 = l
    rw [h1, List.nil_append]
  rw [htrees] at he
  obtain ⟨x, hx, hR⟩ := forall₂_mem_right h2 e he
  exact hR.2

/-- Witness for C9: refreshing the one-window registry twice equals
refreshing it once. -/
theorem C9_witness : (singleWinRegistry.refresh).refresh = singleWinRegistry.refresh :=
  C9_refresh_idempotent singleWinRegistry
    (fun v => by
      show (if v = 7 then (⟨true, false, true, some 0⟩ : WindowState)
        else ⟨true, false, false, none⟩).alive = true
      split <;> rfl)
    (fun e he => by
      simp only [singleWinRegistry, List.mem_singleton] at he
      subst he
      exact Or.inr ⟨0, ⟨.mapped 7 ⟨0, 0, 800, 600⟩, none, []⟩, rfl, rfl, by decide⟩)

/-- **C7** (code_bug): the N+M count fails when the source registry holds
the output with an *empty* tree.  `merge_trees` tests the SOURCE for
emptiness: a non-empty source is deep-copied into the destination, but an
empty source hits the `*dst = src` branch, overwriting the destination
tree with the empty source — the verbatim move the spec reserves for an
empty *destination*.  With one window in the destination (N = 1) and an
empty source entry (M = 0), `merge` leaves zero mapped windows instead of
1 + 0; the third conjunct is the control: with both trees holding one
window the copy direction is fine and 1 + 1 windows survive. -/
theorem C7_merge_empty_source_clobbers_destination :
    (mergeDst.merge mergeSrcEmpty).mappedWindows = [] ∧
    (mergeDst.merge mergeSrcEmpty).mappedWindows.length ≠ 1 + 0 ∧
    (mergeDst.merge mergeSrcOne).mappedWindows.length = 1 + 1 := by
  refine ⟨by decide, by decide, by decide⟩

end Tiling
